import Mathlib

/-! AVR ADS1015 driver: two-wire bus, device protocol and transmit queue.

A shallow embedding of `i2c.c`, `ads1015.c` and `uart.c`.

* Machine integers are `Nat` / `Int` with explicit truncation: `% 256` for `uint8_t`,
  `% 65536` for `uint16_t`, `toInt16` / `toInt8` for the signed types.  The target is an
  8-bit AVR, where `int` is 16 bits wide.
* The TWI peripheral together with the slave on the wire is the environment of `i2c.c`.  It is
  a `Device`: a state machine that reacts to the four bus primitives.  Every primitive appends
  the bus event it produces to a trace, so both the bytes on the wire and the answers of the
  slave can be observed.
* The global `ads1015_config` and the bus form the `Driver` state that is passed explicitly.
* `uart.c` is embedded over `UartState`: the ring buffer, its two indices, the
  "data register empty" interrupt enable bit and the list of bytes written to `UDR0`.
-/

namespace ADS1015

/-! ## Machine integers -/

/-- Conversion of an integer to `int16_t` (two's complement, wrap-around). -/
def toInt16 (n : Int) : Int := (n + 32768) % 65536 - 32768

/-- Conversion of an integer to `int8_t` (two's complement, wrap-around). -/
def toInt8 (n : Int) : Int := (n + 128) % 256 - 128

/-- Bitwise complement of a 16-bit word: `~x` as seen after conversion to `uint16_t`. -/
def bitNot16 (x : Nat) : Nat := (2 ^ 16 - 1) ^^^ (x % 2 ^ 16)

/-! ## i2c.h / i2c.c -/

def I2C_READ : Nat := 1
def I2C_WRITE : Nat := 0
def I2C_ACK : Nat := 1
def I2C_NACK : Nat := 0

/-- What is seen on the two-wire bus: one event per completed primitive.  A `read` event
carries the acknowledge choice of the master and the byte the slave supplied. -/
inductive BusEvent where
  | start : BusEvent
  | stop : BusEvent
  | write (byte : Nat) : BusEvent
  | read (ack : Bool) (byte : Nat) : BusEvent
deriving DecidableEq, Repr

/-- The environment of `i2c.c`: the TWI peripheral plus the slave, as a state machine over
`δ`.  `onRead` gets the acknowledge choice and supplies the received byte. -/
structure Device (δ : Type) where
  onStart : δ → δ
  onStop : δ → δ
  onWrite : Nat → δ → δ
  onRead : Bool → δ → Nat × δ

/-- The bus as the driver sees it: the state of the device and the trace of events so far. -/
structure Bus (δ : Type) where
  dev : δ
  trace : List BusEvent

/-- Embeds `i2c_start`: `TWCR = TWINT | TWEN | TWSTA`, then the wait for `TWINT`.  The
peripheral puts a (repeated) start condition on the bus and releases the wait. -/
def i2c_start {δ : Type} (D : Device δ) (b : Bus δ) : Bus δ :=
  { dev := D.onStart b.dev, trace := b.trace ++ [BusEvent.start] }

/-- Embeds `i2c_stop`: `TWCR = TWINT | TWEN | TWSTO`, then the wait on `TWSTO`. -/
def i2c_stop {δ : Type} (D : Device δ) (b : Bus δ) : Bus δ :=
  { dev := D.onStop b.dev, trace := b.trace ++ [BusEvent.stop] }

/-- Embeds `i2c_write`: `TWDR = byte; TWCR = TWINT | TWEN`, then the wait for `TWINT`.
The parameter is a `uint8_t`. -/
def i2c_write {δ : Type} (D : Device δ) (byte : Nat) (b : Bus δ) : Bus δ :=
  { dev := D.onWrite (byte % 256) b.dev, trace := b.trace ++ [BusEvent.write (byte % 256)] }

/-- Embeds `i2c_read`: `TWCR = TWINT | (ack ? 1 : 0) << TWEA | TWEN`, the wait for `TWINT`,
then `return TWDR`.  `TWDR` is an 8-bit register. -/
def i2c_read {δ : Type} (D : Device δ) (ack : Nat) (b : Bus δ) : Nat × Bus δ :=
  let a : Bool := decide (ack % 256 ≠ 0)
  let r := D.onRead a b.dev
  (r.1 % 256, { dev := r.2, trace := b.trace ++ [BusEvent.read a (r.1 % 256)] })

/-! ## ads1015.h -/

def ADS1015_ADDRESS_ADDR_GND : Nat := 0b1001000
def ADS1015_ADDRESS : Nat := ADS1015_ADDRESS_ADDR_GND

def ADS1015_REG_CONVERSION : Nat := 0b00
def ADS1015_REG_CONFIG : Nat := 0b01
def ADS1015_REG_LO_THRESH : Nat := 0b10
def ADS1015_REG_HI_THRESH : Nat := 0b11

def ADS1015_DEFAULT_CONFIG : Nat := 0x8583

def ADS1015_REG_CONFIG_PGA : Nat := 9
def ADS1015_REG_CONFIG_PGA_LEN : Nat := 3
def ADS1015_REG_CONFIG_OS : Nat := 15
def ADS1015_REG_CONFIG_MUX : Nat := 12
def ADS1015_REG_CONFIG_MUX_LEN : Nat := 3
def ADS1015_REG_CONFIG_MODE : Nat := 8
def ADS1015_REG_COMP_POL : Nat := 3
def ADS1015_REG_CONFIG_DATA_RATE : Nat := 5
def ADS1015_REG_CONFIG_DATA_RATE_LEN : Nat := 3

/-- Modelled from the spec: the table from gain selector to full-scale range, in millivolts
(selectors 0 .. 5).  The names of the macros `ADS1015_GAIN_6V144` .. `ADS1015_GAIN_0V256`
carry the same values. -/
def FSR_mV : Nat → Int
  | 0 => 6144
  | 1 => 4096
  | 2 => 2048
  | 3 => 1024
  | 4 => 512
  | 5 => 256
  | _ => 0

/-! ## ads1015.c -/

/-- The state of the driver: the global `ads1015_config` and the bus. -/
structure Driver (δ : Type) where
  ads1015_config : Nat
  bus : Bus δ

/-- Embeds `ads1015_write(uint8_t reg, uint16_t value)`. -/
def ads1015_write {δ : Type} (D : Device δ) (reg value : Nat) (b : Bus δ) : Bus δ :=
  let reg := reg % 256
  let value := value % 65536
  let b := i2c_start D b
  let b := i2c_write D ((ADS1015_ADDRESS <<< 1) ||| I2C_WRITE) b
  let b := i2c_write D reg b
  let b := i2c_write D (value >>> 8) b
  let b := i2c_write D (value &&& 0xFF) b
  i2c_stop D b

/-- Embeds `ads1015_read(uint8_t reg)`; the result is a `uint16_t`. -/
def ads1015_read {δ : Type} (D : Device δ) (reg : Nat) (b : Bus δ) : Nat × Bus δ :=
  let reg := reg % 256
  let b := i2c_start D b
  let b := i2c_write D ((ADS1015_ADDRESS <<< 1) ||| I2C_WRITE) b
  let b := i2c_write D reg b
  let b := i2c_start D b
  let b := i2c_write D ((ADS1015_ADDRESS <<< 1) ||| I2C_READ) b
  let r1 := i2c_read D I2C_ACK b
  let value := (r1.1 <<< 8) % 65536
  let r2 := i2c_read D I2C_NACK r1.2
  let value := (value ||| r2.1) % 65536
  let b := i2c_stop D r2.2
  (value, b)

/-- The gain selector held in a config word: `(config >> PGA) & ((1 << PGA_LEN) - 1)`,
stored in a `uint8_t`. -/
def gainOf (config : Nat) : Nat :=
  ((config >>> ADS1015_REG_CONFIG_PGA) &&& ((1 <<< ADS1015_REG_CONFIG_PGA_LEN) - 1)) % 256

/-- Embeds `ads1015_read_conversion`.  `ads1015_read` returns a `uint16_t`, so the division
`ads1015_read(...) / 16` is carried out on the unsigned value (a division of naturals); only
its quotient is converted to `int16_t`.  `shift` is an `int8_t`; `value << shift` is the
multiplication by `2 ^ shift`, `value >> -shift` the arithmetic shift, and the returned
value is converted to `int16_t`. -/
def ads1015_read_conversion {δ : Type} (D : Device δ) (s : Driver δ) : Int × Driver δ :=
  let r := ads1015_read D ADS1015_REG_CONVERSION s.bus
  let value : Int := toInt16 ((r.1 / 16 : Nat) : Int)
  let gain : Nat := gainOf s.ads1015_config
  let s1 : Driver δ := { s with bus := r.2 }
  if gain = 0 then
    (toInt16 (value * 3), s1)
  else
    let shift : Int := toInt8 (2 - (gain : Int))
    if shift > 0 then
      (toInt16 (value * 2 ^ shift.toNat), s1)
    else
      (toInt16 (value >>> (-shift).toNat), s1)

/-- How a call that may spin forever ends: it returns, or it is caught in the endless
`while (1);` (the `Fatal` class of the specification).  Both carry the state reached. -/
inductive Outcome (σ : Type) where
  | returned (s : σ) : Outcome σ
  | fatal (s : σ) : Outcome σ

/-- The state in which the call ended. -/
def Outcome.state {σ : Type} : Outcome σ → σ
  | Outcome.returned s => s
  | Outcome.fatal s => s

/-- Whether the call returned to its caller. -/
def Outcome.returns {σ : Type} : Outcome σ → Bool
  | Outcome.returned _ => true
  | Outcome.fatal _ => false

/-- Embeds `ads1015_init`: write the default word with bit 15 masked off, read the config
register back, and spin forever when the value read differs from `ADS1015_DEFAULT_CONFIG`. -/
def ads1015_init {δ : Type} (D : Device δ) (s : Driver δ) : Outcome (Driver δ) :=
  let b := ads1015_write D ADS1015_REG_CONFIG (ADS1015_DEFAULT_CONFIG &&& 0x7FFF) s.bus
  let r := ads1015_read D ADS1015_REG_CONFIG b
  let config := r.1
  let s1 : Driver δ := { s with bus := r.2 }
  if config ≠ ADS1015_DEFAULT_CONFIG then Outcome.fatal s1 else Outcome.returned s1

/-- Embeds `ads1015_start`: the cached word is read, not assigned. -/
def ads1015_start {δ : Type} (D : Device δ) (s : Driver δ) : Driver δ :=
  let value := s.ads1015_config ||| (1 <<< ADS1015_REG_CONFIG_OS)
  { s with bus := ads1015_write D ADS1015_REG_CONFIG value s.bus }

/-- Embeds `ads1015_set_mux(uint8_t mux)`. -/
def ads1015_set_mux {δ : Type} (mux : Nat) (s : Driver δ) : Driver δ :=
  let c := s.ads1015_config &&&
    bitNot16 (((1 <<< ADS1015_REG_CONFIG_MUX_LEN) - 1) <<< ADS1015_REG_CONFIG_MUX)
  let c := (c ||| ((mux % 256) <<< ADS1015_REG_CONFIG_MUX)) % 65536
  { s with ads1015_config := c }

/-- Embeds `ads1015_set_gain(uint8_t gain)`. -/
def ads1015_set_gain {δ : Type} (gain : Nat) (s : Driver δ) : Driver δ :=
  let c := s.ads1015_config &&&
    bitNot16 (((1 <<< ADS1015_REG_CONFIG_PGA_LEN) - 1) <<< ADS1015_REG_CONFIG_PGA)
  let c := (c ||| ((gain % 256) <<< ADS1015_REG_CONFIG_PGA)) % 65536
  { s with ads1015_config := c }

/-- Embeds `ads1015_set_mode(uint8_t mode)`. -/
def ads1015_set_mode {δ : Type} (mode : Nat) (s : Driver δ) : Driver δ :=
  let c := s.ads1015_config &&& bitNot16 (1 <<< ADS1015_REG_CONFIG_MODE)
  let c := (c ||| ((mode % 256) <<< ADS1015_REG_CONFIG_MODE)) % 65536
  { s with ads1015_config := c }

/-- Embeds `ads1015_set_irq_polarity(uint8_t polarity)`. -/
def ads1015_set_irq_polarity {δ : Type} (polarity : Nat) (s : Driver δ) : Driver δ :=
  let c := s.ads1015_config &&& bitNot16 (1 <<< ADS1015_REG_COMP_POL)
  let c := (c ||| ((polarity % 256) <<< ADS1015_REG_COMP_POL)) % 65536
  { s with ads1015_config := c }

/-- Embeds `ads1015_set_data_rate(uint8_t data_rate)`. -/
def ads1015_set_data_rate {δ : Type} (data_rate : Nat) (s : Driver δ) : Driver δ :=
  let c := s.ads1015_config &&&
    bitNot16 (((1 <<< ADS1015_REG_CONFIG_DATA_RATE_LEN) - 1) <<< ADS1015_REG_CONFIG_DATA_RATE)
  let c := (c ||| ((data_rate % 256) <<< ADS1015_REG_CONFIG_DATA_RATE)) % 65536
  { s with ads1015_config := c }

/-- Embeds `ads1015_enable_alarm_irq`: two register writes, then
`ads1015_config &= ~0b11`. -/
def ads1015_enable_alarm_irq {δ : Type} (D : Device δ) (s : Driver δ) : Driver δ :=
  let b := ads1015_write D ADS1015_REG_HI_THRESH 0xFFFF s.bus
  let b := ads1015_write D ADS1015_REG_LO_THRESH 0x0000 b
  { ads1015_config := s.ads1015_config &&& bitNot16 0b11, bus := b }

/-- Embeds `ads1015_read_conversion_f`.  The register is first stored in the `int16_t raw`;
`raw / 16` is the integer division of C, which truncates toward zero.  The `float` values are
rationals here: every value that occurs is a multiple of 1/8 of magnitude at most 6144, on
which the conversion from `int`, the multiplication by 3 or 2 and the division by 2, 4 or 8
of a binary floating-point format with 24 bits of precision are exact. -/
def ads1015_read_conversion_f {δ : Type} (D : Device δ) (s : Driver δ) : ℚ × Driver δ :=
  let r := ads1015_read D ADS1015_REG_CONVERSION s.bus
  let raw : Int := toInt16 (r.1 : Int)
  let value : ℚ := ((Int.tdiv raw 16 : Int) : ℚ)
  let gain : Nat := gainOf s.ads1015_config
  let s1 : Driver δ := { s with bus := r.2 }
  match gain with
  | 0 => (value * 3, s1)
  | 1 => (value * 2, s1)
  | 2 => (value, s1)
  | 3 => (value / 2, s1)
  | 4 => (value / 4, s1)
  | 5 => (value / 8, s1)
  | _ => (value, s1)

/-- The masks of the bit fields of the config word, as the code forms them: the trigger bit
`1 << OS`, the multiplexer, gain, mode, data-rate and polarity fields of the setters, and the
comparator queue field `0b11` of `ads1015_enable_alarm_irq`. -/
def configMasks : List Nat :=
  [1 <<< ADS1015_REG_CONFIG_OS,
   ((1 <<< ADS1015_REG_CONFIG_MUX_LEN) - 1) <<< ADS1015_REG_CONFIG_MUX,
   ((1 <<< ADS1015_REG_CONFIG_PGA_LEN) - 1) <<< ADS1015_REG_CONFIG_PGA,
   1 <<< ADS1015_REG_CONFIG_MODE,
   ((1 <<< ADS1015_REG_CONFIG_DATA_RATE_LEN) - 1) <<< ADS1015_REG_CONFIG_DATA_RATE,
   1 <<< ADS1015_REG_COMP_POL,
   0b11]

/-- What a setter of the bit field at position `pos` of width `len` does to the driver
state when given the selector `v`: the cached word becomes `(c AND NOT mask) OR (v << pos)`
with `mask = ((1 << len) - 1) << pos`, the field reads back `v`, every bit outside the field
keeps its value, and the bus (device and trace) is the same. -/
def UpdatesField {δ : Type} (pos len v : Nat) (s s1 : Driver δ) : Prop :=
  s1.ads1015_config =
    (s.ads1015_config &&& bitNot16 (((1 <<< len) - 1) <<< pos)) ||| (v <<< pos) ∧
  (s1.ads1015_config >>> pos) &&& ((1 <<< len) - 1) = v ∧
  (∀ i, (i < pos ∨ pos + len ≤ i) →
    s1.ads1015_config.testBit i = s.ads1015_config.testBit i) ∧
  s1.bus = s.bus

/-! ## Reading a bus trace -/

/-- Scans a trace for its framing; `inTransaction` tells whether a start is open.  A start
opens a transaction, or repeats the start inside an open one; a byte transfer and a stop
need an open transaction; a stop closes it.  The result tells whether the trace is legal
and leaves the bus idle. -/
def framed : Bool → List BusEvent → Bool
  | inTransaction, [] => !inTransaction
  | _, BusEvent.start :: rest => framed true rest
  | inTransaction, BusEvent.stop :: rest => inTransaction && framed false rest
  | inTransaction, BusEvent.write _ :: rest => inTransaction && framed true rest
  | inTransaction, BusEvent.read _ _ :: rest => inTransaction && framed true rest

/-- The number of start conditions put on an idle bus (the starts that open a transaction),
as opposed to repeated starts. -/
def openingStarts : Bool → List BusEvent → Nat
  | _, [] => 0
  | inTransaction, BusEvent.start :: rest =>
    (if inTransaction then 0 else 1) + openingStarts true rest
  | _, BusEvent.stop :: rest => openingStarts false rest
  | inTransaction, _ :: rest => openingStarts inTransaction rest

/-- What an operation adds to the bus trace: the new trace is the old one followed by
events that form complete transactions, with `starts` start conditions and `stops` stop
conditions, every stop closing the transaction that one opening start began. -/
def AddsTransactions (old new : List BusEvent) (starts stops : Nat) : Prop :=
  ∃ evs, new = old ++ evs ∧ framed false evs = true ∧
    List.count BusEvent.start evs = starts ∧ List.count BusEvent.stop evs = stops ∧
    openingStarts false evs = stops

/-- No byte is read before the byte `a` has been written: scanning from the left, a write of
`a` is met before any read. -/
def noReadBefore (a : Nat) : List BusEvent → Bool
  | [] => true
  | BusEvent.write b :: rest => if b = a then true else noReadBefore a rest
  | BusEvent.read _ _ :: _ => false
  | _ :: rest => noReadBefore a rest

/-! ## Devices used to exercise the driver -/

/-- Where the mock slave is inside a transaction. -/
inductive MockPhase where
  | idle : MockPhase
  | address : MockPhase
  | pointer : MockPhase
  | dataHi : MockPhase
  | dataLo (hi : Nat) : MockPhase
  | readHi : MockPhase
  | readLo : MockPhase
deriving DecidableEq, Repr

/-- The register file of the mock slave: four 16-bit registers, the pointer register and
the transaction phase. -/
structure MockState where
  conversion : Nat
  config : Nat
  lo_thresh : Nat
  hi_thresh : Nat
  pointer : Nat
  phase : MockPhase
deriving DecidableEq, Repr

/-- The register selected by a pointer value (its two low bits). -/
def MockState.getReg (m : MockState) (p : Nat) : Nat :=
  match p % 4 with
  | 0 => m.conversion
  | 1 => m.config
  | 2 => m.lo_thresh
  | _ => m.hi_thresh

/-- Store into the register selected by a pointer value. -/
def MockState.setReg (m : MockState) (p v : Nat) : MockState :=
  match p % 4 with
  | 0 => { m with conversion := v }
  | 1 => { m with config := v }
  | 2 => { m with lo_thresh := v }
  | _ => { m with hi_thresh := v }

/-- The value the mock slave presents when the selected register is read.  With
`statusOnRead` the config register is presented with bit 15 set, the way an idle converter
reports its status; without it a read presents exactly the value last written. -/
def MockState.view (statusOnRead : Bool) (m : MockState) : Nat :=
  if statusOnRead && decide (m.pointer % 4 = ADS1015_REG_CONFIG) then
    m.getReg m.pointer ||| 0x8000
  else
    m.getReg m.pointer

/-- Modelled from the spec: the simulated two-wire bus of the testable properties, a slave
at address `ADS1015_ADDRESS` with four 16-bit registers.  After a start the first byte is the
address with the direction bit; in a write transaction the next byte is the register pointer
and the following bytes are stored most significant byte first; in a read transaction the
selected register is returned most significant byte first.  `mockDevice false` is the
round-trip register file. -/
def mockDevice (statusOnRead : Bool) : Device MockState where
  onStart := fun m => { m with phase := MockPhase.address }
  onStop := fun m => { m with phase := MockPhase.idle }
  onWrite := fun b m =>
    match m.phase with
    | MockPhase.address =>
      if b = ((ADS1015_ADDRESS <<< 1) ||| I2C_WRITE) then { m with phase := MockPhase.pointer }
      else if b = ((ADS1015_ADDRESS <<< 1) ||| I2C_READ) then { m with phase := MockPhase.readHi }
      else { m with phase := MockPhase.idle }
    | MockPhase.pointer => { m with pointer := b % 4, phase := MockPhase.dataHi }
    | MockPhase.dataHi => { m with phase := MockPhase.dataLo b }
    | MockPhase.dataLo hi => { m.setReg m.pointer (hi * 256 + b) with phase := MockPhase.dataHi }
    | _ => m
  onRead := fun _ m =>
    match m.phase with
    | MockPhase.readHi => (m.view statusOnRead / 256, { m with phase := MockPhase.readLo })
    | MockPhase.readLo => (m.view statusOnRead % 256, { m with phase := MockPhase.readHi })
    | _ => (0xFF, m)

/-- A slave that answers reads from a script: each read takes the next byte of the list
(0 when the script is exhausted) and ignores everything else. -/
def scriptDevice : Device (List Nat) where
  onStart := fun l => l
  onStop := fun l => l
  onWrite := fun _ l => l
  onRead := fun _ l => (l.headD 0, l.tail)

/-! ## uart.h / uart.c -/

/-- The transmit side of `uart.c`.  `tx_buff`, `tx_head` and `tx_tail` are the globals of
that name; `udrie` is the `UDRIE0` bit of `UCSR0B`; `udr` lists the bytes written to `UDR0`,
oldest first. -/
structure UartState where
  tx_buff : List Nat
  tx_head : Nat
  tx_tail : Nat
  udrie : Bool
  udr : List Nat
deriving DecidableEq, Repr

/-- The state after reset: the globals are zero-initialised, `UCSR0B` is clear and nothing
has been transmitted. -/
def uart_reset (TX_BUFF_SIZE : Nat) : UartState :=
  { tx_buff := List.replicate TX_BUFF_SIZE 0, tx_head := 0, tx_tail := 0,
    udrie := false, udr := [] }

/-- Embeds `uart_putc(uint8_t byte)`, run without an interrupt in between.  When
`head == tx_tail` the `while` loop cannot be left, since only the interrupt changes
`tx_tail`: the call is blocked and the result is `none`. -/
def uart_putc (TX_BUFF_SIZE : Nat) (byte : Nat) (s : UartState) : Option UartState :=
  let head := ((s.tx_head + 1) &&& (TX_BUFF_SIZE - 1)) % 256
  if head = s.tx_tail then
    none
  else
    some { s with tx_buff := s.tx_buff.set head (byte % 256), tx_head := head, udrie := true }

/-- Embeds `ISR(USART_UDRE_vect)`. -/
def USART_UDRE_vect (TX_BUFF_SIZE : Nat) (s : UartState) : UartState :=
  if s.tx_head ≠ s.tx_tail then
    let tail := ((s.tx_tail + 1) &&& (TX_BUFF_SIZE - 1)) % 256
    { s with tx_tail := tail, udr := s.udr ++ [s.tx_buff.getD tail 0] }
  else
    { s with udrie := false }

/-- Who runs next: the producer (the main context, inside or between `uart_putc` calls) or
the drain interrupt. -/
inductive Tick where
  | producer : Tick
  | drain : Tick
deriving DecidableEq, Repr

/-- Runs a schedule.  `pending` are the bytes the producer still has to pass to `uart_putc`,
in call order.  On a producer tick the current call completes when the queue has room;
on a full queue it keeps spinning, and the same byte is still pending at the next tick.
On a drain tick the interrupt handler runs.  The result is the final state and the bytes
whose call has not completed. -/
def run (TX_BUFF_SIZE : Nat) : List Tick → List Nat → UartState → UartState × List Nat
  | [], pending, s => (s, pending)
  | Tick.producer :: ts, [], s => run TX_BUFF_SIZE ts [] s
  | Tick.producer :: ts, b :: bs, s =>
    match uart_putc TX_BUFF_SIZE b s with
    | some s1 => run TX_BUFF_SIZE ts bs s1
    | none => run TX_BUFF_SIZE ts (b :: bs) s
  | Tick.drain :: ts, pending, s => run TX_BUFF_SIZE ts pending (USART_UDRE_vect TX_BUFF_SIZE s)

/-- The bookkeeping behind the ring buffer, for a queue that was empty at index `t` with
`out0` already transmitted and that is fed the bytes `bytes`: `p` calls of `uart_putc` have
completed and `d` bytes have been drained since.  Call number `i` stored its byte in slot
`(t + i + 1) % N`. -/
def RingInv (N t : Nat) (out0 bytes : List Nat) (p d : Nat) (s : UartState) : Prop :=
  d ≤ p ∧ p ≤ d + (N - 1) ∧ p ≤ bytes.length ∧
  s.tx_head = (t + p) % N ∧ s.tx_tail = (t + d) % N ∧ s.tx_buff.length = N ∧
  s.udr = out0 ++ bytes.take d ∧
  ∀ i, d ≤ i → i < p → s.tx_buff.getD ((t + i + 1) % N) 0 = bytes.getD i 0

end ADS1015

open ADS1015

/-! ## Integer conversion path -/

theorem toInt16_of_small (n : Int) (h0 : -32768 ≤ n) (h1 : n < 32768) : toInt16 n = n := by
  unfold toInt16
  omega

theorem gainOf_eq (c : Nat) : gainOf c = (c >>> 9) &&& 7 := by
  unfold gainOf
  have h : (c >>> 9) &&& 7 < 2 ^ 3 := Nat.and_lt_two_pow _ (by norm_num)
  have h7 : (1 <<< ADS1015_REG_CONFIG_PGA_LEN) - 1 = 7 := by decide
  have h9 : ADS1015_REG_CONFIG_PGA = 9 := rfl
  rw [h7, h9]
  omega

theorem ads1015_read_lt {δ : Type} (D : Device δ) (reg : Nat) (b : Bus δ) :
    (ads1015_read D reg b).1 < 65536 := by
  simp only [ads1015_read]
  exact Nat.mod_lt _ (by norm_num)

/-- C1 (what the code does instead): the division by 16 is carried out on the unsigned
register value, so `ads1015_read_conversion` never returns a negative number, whatever the
device answers and whatever the cached gain is.  With the default config word (gain
selector 2) the conversion-register values `0xFFF0` and `0x8000` read from the bus are
returned as 4095 and 2048, not as -1 and -2048. -/
theorem read_conversion_divides_unsigned :
    (∀ (δ : Type) (D : Device δ) (s : Driver δ), 0 ≤ (ads1015_read_conversion D s).1) ∧
    gainOf ADS1015_DEFAULT_CONFIG = 2 ∧
    (ads1015_read scriptDevice ADS1015_REG_CONVERSION ⟨[0xFF, 0xF0], []⟩).1 = 0xFFF0 ∧
    (ads1015_read_conversion scriptDevice ⟨ADS1015_DEFAULT_CONFIG, ⟨[0xFF, 0xF0], []⟩⟩).1 = 4095 ∧
    (ads1015_read scriptDevice ADS1015_REG_CONVERSION ⟨[0x80, 0x00], []⟩).1 = 0x8000 ∧
    (ads1015_read_conversion scriptDevice ⟨ADS1015_DEFAULT_CONFIG, ⟨[0x80, 0x00], []⟩⟩).1 = 2048 := by
  refine ⟨?_, by decide, by decide, by decide, by decide, by decide⟩
  intro δ D s
  have hr := ads1015_read_lt D ADS1015_REG_CONVERSION s.bus
  have hg : gainOf s.ads1015_config < 8 := by
    rw [gainOf_eq]
    exact Nat.and_lt_two_pow _ (by norm_num : 7 < 2 ^ 3)
  unfold ads1015_read_conversion
  simp only []
  generalize (ads1015_read D ADS1015_REG_CONVERSION s.bus).1 = r at hr ⊢
  generalize gainOf s.ads1015_config = g at hg ⊢
  have hv0 : (0 : Int) ≤ ((r / 16 : Nat) : Int) := Int.ofNat_nonneg _
  have hv1 : ((r / 16 : Nat) : Int) < 4096 := by
    have : r / 16 < 4096 := by omega
    exact_mod_cast this
  generalize ((r / 16 : Nat) : Int) = v at hv0 hv1 ⊢
  rw [toInt16_of_small v (by omega) (by omega)]
  interval_cases g <;> simp [toInt8, Int.shiftRight_eq_div_pow] <;>
    rw [toInt16_of_small _ (by omega) (by omega)] <;> omega

/-- C2: for a gain selector `g` in 0..5 held in the cached config word and a non-negative
sample (`r < 0x8000` read from the conversion register, `v = r / 16`),
`ads1015_read_conversion` returns `v*3, v*2, v, v/2, v/4, v/8` for `g = 0, .., 5`, which is
`floor (v * FSR_mV g / 2048)`. -/
theorem read_conversion_gain_scaling {δ : Type} (D : Device δ) (s : Driver δ) (g : Nat)
    (hg : g ≤ 5) (hgain : (s.ads1015_config >>> 9) &&& 7 = g)
    (hr : (ads1015_read D ADS1015_REG_CONVERSION s.bus).1 < 0x8000) :
    (ads1015_read_conversion D s).1 =
      [(((ads1015_read D ADS1015_REG_CONVERSION s.bus).1 / 16 : Nat) : Int) * 3,
       (((ads1015_read D ADS1015_REG_CONVERSION s.bus).1 / 16 : Nat) : Int) * 2,
       (((ads1015_read D ADS1015_REG_CONVERSION s.bus).1 / 16 : Nat) : Int),
       (((ads1015_read D ADS1015_REG_CONVERSION s.bus).1 / 16 : Nat) : Int) / 2,
       (((ads1015_read D ADS1015_REG_CONVERSION s.bus).1 / 16 : Nat) : Int) / 4,
       (((ads1015_read D ADS1015_REG_CONVERSION s.bus).1 / 16 : Nat) : Int) / 8].getD g 0 ∧
    (ads1015_read_conversion D s).1 =
      (((ads1015_read D ADS1015_REG_CONVERSION s.bus).1 / 16 : Nat) : Int) * FSR_mV g / 2048 := by
  have hG : gainOf s.ads1015_config = g := by rw [gainOf_eq]; exact hgain
  unfold ads1015_read_conversion
  simp only [hG]
  generalize (ads1015_read D ADS1015_REG_CONVERSION s.bus).1 = r at hr ⊢
  have hv0 : (0 : Int) ≤ ((r / 16 : Nat) : Int) := Int.ofNat_nonneg _
  have hv1 : ((r / 16 : Nat) : Int) < 2048 := by
    have : r / 16 < 2048 := by omega
    exact_mod_cast this
  generalize ((r / 16 : Nat) : Int) = v at hv0 hv1 ⊢
  have hv : toInt16 v = v := toInt16_of_small v (by omega) (by omega)
  rw [hv]
  interval_cases g
  · simp [FSR_mV]
    constructor
    · exact toInt16_of_small _ (by omega) (by omega)
    · rw [toInt16_of_small _ (by omega) (by omega)]; omega
  all_goals
    simp [FSR_mV, toInt8, Int.shiftRight_eq_div_pow]
    unfold toInt16
    omega

/-- Witness for C2: the register value `0x0200` gives 32 at gain selector 2. -/
theorem read_conversion_gain_scaling_witness :
    (ads1015_read_conversion scriptDevice ⟨0x8583, ⟨[0x02, 0x00], []⟩⟩).1 = 32 ∧
    (ads1015_read_conversion scriptDevice ⟨0x8183, ⟨[0x02, 0x00], []⟩⟩).1 = 96 := by
  have h2 := read_conversion_gain_scaling scriptDevice ⟨0x8583, ⟨[0x02, 0x00], []⟩⟩ 2
    (by decide) (by decide) (by decide)
  have h0 := read_conversion_gain_scaling scriptDevice ⟨0x8183, ⟨[0x02, 0x00], []⟩⟩ 0
    (by decide) (by decide) (by decide)
  refine ⟨h2.1.trans (by decide), h0.1.trans (by decide)⟩

/-! ## Register access over the mock bus -/

theorem assemble_bytes (hi lo : Nat) (hhi : hi < 256) (hlo : lo < 256) :
    ((hi <<< 8) % 65536 ||| lo) % 65536 = hi * 256 + lo := by
  have h1 : hi <<< 8 = 2 ^ 8 * hi := by rw [Nat.shiftLeft_eq, Nat.mul_comm]
  have h2 : 2 ^ 8 * hi % 65536 = 2 ^ 8 * hi := Nat.mod_eq_of_lt (by omega)
  have h3 : 2 ^ 8 * hi ||| lo = 2 ^ 8 * hi + lo :=
    (Nat.mul_add_lt_is_or (by omega) hi).symm
  rw [h1, h2, h3]
  omega

theorem split_bytes (v : Nat) : v >>> 8 = v / 256 ∧ v &&& 0xFF = v % 256 := by
  constructor
  · rw [Nat.shiftRight_eq_div_pow]
  · exact Nat.and_pow_two_sub_one_eq_mod v 8

/-- C3: over the round-trip mock bus, for every register pointer `reg` in 0..3 and every
16-bit value `v`, `ads1015_write reg v` followed by `ads1015_read reg` returns `v`, whatever
the state of the mock before. -/
theorem write_read_roundtrip (reg v : Nat) (hreg : reg < 4) (hv : v < 65536)
    (m : MockState) (tr : List BusEvent) :
    (ads1015_read (mockDevice false) reg
      (ads1015_write (mockDevice false) reg v ⟨m, tr⟩)).1 = v := by
  have hs := split_bytes (v % 65536)
  interval_cases reg <;>
    simp [ads1015_write, ads1015_read, i2c_start, i2c_stop, i2c_write, i2c_read, mockDevice,
      MockState.setReg, MockState.getReg, MockState.view, ADS1015_ADDRESS,
      ADS1015_ADDRESS_ADDR_GND, I2C_WRITE, I2C_READ, I2C_ACK, I2C_NACK, ADS1015_REG_CONFIG]
  all_goals
    rw [hs.1, hs.2,
      assemble_bytes _ _ (Nat.mod_lt _ (by norm_num)) (Nat.mod_lt _ (by norm_num))]
    omega

/-- Witness for C3: `0xBEEF` written to the low-threshold register is read back. -/
theorem write_read_roundtrip_witness :
    (ads1015_read (mockDevice false) 2
      (ads1015_write (mockDevice false) 2 0xBEEF
        ⟨⟨0, 0, 0, 0, 0, MockPhase.idle⟩, []⟩)).1 = 0xBEEF :=
  write_read_roundtrip 2 0xBEEF (by decide) (by decide) ⟨0, 0, 0, 0, 0, MockPhase.idle⟩ []

/-! ## Initialisation -/

/-- The counterexample to C4: on the round-trip mock bus (every register zero, idle)
`ads1015_init` reads back `0x0583` and ends in the endless wait. -/
theorem init_roundtrip_mock_is_fatal :
    (ads1015_read (mockDevice false) ADS1015_REG_CONFIG
      (ads1015_write (mockDevice false) ADS1015_REG_CONFIG (ADS1015_DEFAULT_CONFIG &&& 0x7FFF)
        ⟨⟨0, 0, 0, 0, 0, MockPhase.idle⟩, []⟩)).1 = 0x0583 ∧
    (ads1015_init (mockDevice false)
      ⟨ADS1015_DEFAULT_CONFIG, ⟨⟨0, 0, 0, 0, 0, MockPhase.idle⟩, []⟩⟩).returns = false := by
  decide


/-- C4 as amended: `ads1015_init` compares the readback with `0x8583`, not with the word
`0x0583` it wrote.  On the round-trip mock bus the readback is `0x0583` and the call ends in
the endless wait, from every mock state; on the mock that presents the config register with
the status bit 15 set, the readback is `0x8583` and the call returns. -/
theorem init_on_mock_bus (c : Nat) (m : MockState) (tr : List BusEvent) :
    (ads1015_read (mockDevice false) ADS1015_REG_CONFIG
      (ads1015_write (mockDevice false) ADS1015_REG_CONFIG (ADS1015_DEFAULT_CONFIG &&& 0x7FFF)
        ⟨m, tr⟩)).1 = 0x0583 ∧
    (ads1015_init (mockDevice false) ⟨c, ⟨m, tr⟩⟩).returns = false ∧
    (ads1015_read (mockDevice true) ADS1015_REG_CONFIG
      (ads1015_write (mockDevice true) ADS1015_REG_CONFIG (ADS1015_DEFAULT_CONFIG &&& 0x7FFF)
        ⟨m, tr⟩)).1 = 0x8583 ∧
    (ads1015_init (mockDevice true) ⟨c, ⟨m, tr⟩⟩).returns = true := by
  have e : ADS1015_DEFAULT_CONFIG &&& 0x7FFF = 0x0583 := by decide
  have e1 : ADS1015_REG_CONFIG = 1 := rfl
  have hf : (ads1015_read (mockDevice false) 1
      (ads1015_write (mockDevice false) 1 0x0583 ⟨m, tr⟩)).1 = 0x0583 := by
    simp [ads1015_write, ads1015_read, i2c_start, i2c_stop, i2c_write, i2c_read,
      mockDevice, MockState.setReg, MockState.getReg, MockState.view, ADS1015_ADDRESS,
      ADS1015_ADDRESS_ADDR_GND, I2C_WRITE, I2C_READ, I2C_ACK, I2C_NACK, ADS1015_REG_CONFIG]
    decide
  have ht : (ads1015_read (mockDevice true) 1
      (ads1015_write (mockDevice true) 1 0x0583 ⟨m, tr⟩)).1 = 0x8583 := by
    simp [ads1015_write, ads1015_read, i2c_start, i2c_stop, i2c_write, i2c_read,
      mockDevice, MockState.setReg, MockState.getReg, MockState.view, ADS1015_ADDRESS,
      ADS1015_ADDRESS_ADDR_GND, I2C_WRITE, I2C_READ, I2C_ACK, I2C_NACK, ADS1015_REG_CONFIG]
    decide
  refine ⟨?_, ?_, ?_, ?_⟩
  · rw [e, e1]; exact hf
  · unfold ads1015_init
    simp only [e, e1, hf]
    simp [ADS1015_DEFAULT_CONFIG, Outcome.returns]
  · rw [e, e1]; exact ht
  · unfold ads1015_init
    simp only [e, e1, ht]
    simp [ADS1015_DEFAULT_CONFIG, Outcome.returns]

theorem ads1015_write_trace {δ : Type} (D : Device δ) (reg value : Nat) (b : Bus δ) :
    (ads1015_write D reg value b).trace =
      b.trace ++ [BusEvent.start, BusEvent.write 0x90, BusEvent.write (reg % 256),
        BusEvent.write (value % 65536 / 256), BusEvent.write (value % 256), BusEvent.stop] := by
  have hs := split_bytes (value % 65536)
  have h1 : value % 65536 / 256 % 256 = value % 65536 / 256 := by omega
  have h2 : value % 65536 % 256 % 256 = value % 256 := by omega
  simp [ads1015_write, i2c_start, i2c_stop, i2c_write, ADS1015_ADDRESS,
    ADS1015_ADDRESS_ADDR_GND, I2C_WRITE, hs.1, hs.2, h1, h2]

theorem ads1015_read_trace {δ : Type} (D : Device δ) (reg : Nat) (b : Bus δ) :
    ∃ b1 b2 : Nat, b1 < 256 ∧ b2 < 256 ∧
      (ads1015_read D reg b).1 = b1 * 256 + b2 ∧
      (ads1015_read D reg b).2.trace =
        b.trace ++ [BusEvent.start, BusEvent.write 0x90, BusEvent.write (reg % 256),
          BusEvent.start, BusEvent.write 0x91, BusEvent.read true b1, BusEvent.read false b2,
          BusEvent.stop] := by
  let b5 := i2c_write D ((ADS1015_ADDRESS <<< 1) ||| I2C_READ) (i2c_start D
    (i2c_write D (reg % 256) (i2c_write D ((ADS1015_ADDRESS <<< 1) ||| I2C_WRITE)
      (i2c_start D b))))
  refine ⟨(i2c_read D I2C_ACK b5).1, (i2c_read D I2C_NACK (i2c_read D I2C_ACK b5).2).1,
    ?_, ?_, ?_, ?_⟩
  · simp only [i2c_read]; exact Nat.mod_lt _ (by norm_num)
  · simp only [i2c_read]; exact Nat.mod_lt _ (by norm_num)
  · simp only [ads1015_read]
    exact assemble_bytes _ _ (Nat.mod_lt _ (by norm_num)) (Nat.mod_lt _ (by norm_num))
  · simp [b5, ads1015_read, i2c_start, i2c_stop, i2c_write, i2c_read, ADS1015_ADDRESS,
      ADS1015_ADDRESS_ADDR_GND, I2C_WRITE, I2C_READ, I2C_ACK, I2C_NACK]

theorem init_outcome {δ : Type} (D : Device δ) (s : Driver δ) :
    (ads1015_init D s).state.ads1015_config = s.ads1015_config ∧
    (ads1015_init D s).state.bus =
      (ads1015_read D ADS1015_REG_CONFIG (ads1015_write D ADS1015_REG_CONFIG 0x0583 s.bus)).2 ∧
    ((ads1015_init D s).returns = true ↔
      (ads1015_read D ADS1015_REG_CONFIG
        (ads1015_write D ADS1015_REG_CONFIG 0x0583 s.bus)).1 = 0x8583) := by
  have e : ADS1015_DEFAULT_CONFIG &&& 0x7FFF = 0x0583 := by decide
  unfold ads1015_init
  simp only [e]
  by_cases h : (ads1015_read D ADS1015_REG_CONFIG
      (ads1015_write D ADS1015_REG_CONFIG 0x0583 s.bus)).1 = ADS1015_DEFAULT_CONFIG
  · simp [h, Outcome.state, Outcome.returns, ADS1015_DEFAULT_CONFIG]
  · have h2 : ¬ (ads1015_read D ADS1015_REG_CONFIG
        (ads1015_write D ADS1015_REG_CONFIG 0x0583 s.bus)).1 = 0x8583 := h
    simp [h, h2, Outcome.state, Outcome.returns]

/-- C5: `ads1015_init` writes `0x0583` (the default `0x8583` with bit 15 cleared) to the
config register (pointer 1), then reads the config register back; with `x = b1 * 256 + b2`
the value read back, it returns when `x = 0x8583` and ends in the endless wait (`Fatal`,
`returns = false`) when `x` differs from `0x8583`.  Every 16-bit `x` occurs as a readback: a slave answering
with the two bytes of `x` makes the call return exactly when `x = 0x8583`. -/
theorem init_checks_readback {δ : Type} (D : Device δ) (s : Driver δ) :
    (∃ b1 b2 : Nat, b1 < 256 ∧ b2 < 256 ∧
      (ads1015_init D s).state.bus.trace = s.bus.trace ++
        [BusEvent.start, BusEvent.write 0x90, BusEvent.write 1, BusEvent.write 0x05,
         BusEvent.write 0x83, BusEvent.stop,
         BusEvent.start, BusEvent.write 0x90, BusEvent.write 1, BusEvent.start,
         BusEvent.write 0x91, BusEvent.read true b1, BusEvent.read false b2, BusEvent.stop] ∧
      (ads1015_init D s).state.ads1015_config = s.ads1015_config ∧
      (ads1015_init D s).returns = decide (b1 * 256 + b2 = 0x8583)) ∧
    (∀ (x c : Nat) (tr : List BusEvent),
      (ads1015_init scriptDevice ⟨c, ⟨[x / 256 % 256, x % 256], tr⟩⟩).returns =
        decide (x % 65536 = 0x8583)) := by
  constructor
  · obtain ⟨hc, hb, hr⟩ := init_outcome D s
    obtain ⟨b1, b2, h1, h2, hv, ht⟩ :=
      ads1015_read_trace D ADS1015_REG_CONFIG (ads1015_write D ADS1015_REG_CONFIG 0x0583 s.bus)
    refine ⟨b1, b2, h1, h2, ?_, hc, ?_⟩
    · rw [hb, ht, ads1015_write_trace]
      simp [ADS1015_REG_CONFIG]
    · rw [hv] at hr
      by_cases hx : b1 * 256 + b2 = 0x8583
      · simp [hx, hr.2 hx]
      · cases hret : (ads1015_init D s).returns
        · simp [hx]
        · exact absurd (hr.1 hret) hx
  · intro x c tr
    obtain ⟨-, -, hr⟩ := init_outcome scriptDevice ⟨c, ⟨[x / 256 % 256, x % 256], tr⟩⟩
    have hv : (ads1015_read scriptDevice ADS1015_REG_CONFIG
        (ads1015_write scriptDevice ADS1015_REG_CONFIG 0x0583
          ⟨[x / 256 % 256, x % 256], tr⟩)).1 = x % 65536 := by
      have key := assemble_bytes (x / 256 % 256) (x % 256) (by omega) (by omega)
      simp [ads1015_read, ads1015_write, i2c_start, i2c_stop, i2c_write, i2c_read, scriptDevice]
      rw [key]
      omega
    rw [hv] at hr
    by_cases hx : x % 65536 = 0x8583
    · simp [hx, hr.2 hx]
    · cases hret : (ads1015_init scriptDevice ⟨c, ⟨[x / 256 % 256, x % 256], tr⟩⟩).returns
      · simp [hx]
      · exact absurd (hr.1 hret) hx

/-! ## The cached config word -/

/-- Read-modify-write of one bit field of a 16-bit word, as every setter does it. -/
theorem field_update (c pos len v : Nat) (hc : c < 2 ^ 16) (hpl : pos + len ≤ 16)
    (hv : v < 2 ^ len) :
    ((c &&& bitNot16 ((2 ^ len - 1) <<< pos)) ||| (v <<< pos)) % 65536 =
      (c &&& bitNot16 ((2 ^ len - 1) <<< pos)) ||| (v <<< pos) ∧
    (((c &&& bitNot16 ((2 ^ len - 1) <<< pos)) ||| (v <<< pos)) >>> pos) &&& (2 ^ len - 1) = v ∧
    ∀ i, (i < pos ∨ pos + len ≤ i) →
      ((c &&& bitNot16 ((2 ^ len - 1) <<< pos)) ||| (v <<< pos)).testBit i = c.testBit i := by
  have hm : (2 ^ len - 1) <<< pos < 2 ^ 16 := by
    rw [Nat.shiftLeft_eq]
    calc (2 ^ len - 1) * 2 ^ pos < 2 ^ len * 2 ^ pos :=
          Nat.mul_lt_mul_of_pos_right (Nat.sub_lt (Nat.pow_pos (by norm_num)) (by norm_num))
            (Nat.pow_pos (by norm_num))
      _ = 2 ^ (len + pos) := (Nat.pow_add 2 len pos).symm
      _ ≤ 2 ^ 16 := Nat.pow_le_pow_right (by norm_num) (by omega)
  have hvs : v <<< pos < 2 ^ 16 := by
    rw [Nat.shiftLeft_eq]
    calc v * 2 ^ pos < 2 ^ len * 2 ^ pos :=
          Nat.mul_lt_mul_of_pos_right hv (Nat.pow_pos (by norm_num))
      _ = 2 ^ (len + pos) := (Nat.pow_add 2 len pos).symm
      _ ≤ 2 ^ 16 := Nat.pow_le_pow_right (by norm_num) (by omega)
  have hbit : ∀ i, (bitNot16 ((2 ^ len - 1) <<< pos)).testBit i =
      (decide (i < 16) && !(decide (pos ≤ i) && decide (i < pos + len))) := by
    intro i
    unfold bitNot16
    rw [Nat.mod_eq_of_lt hm]
    simp only [Nat.testBit_xor, Nat.testBit_two_pow_sub_one, Nat.testBit_shiftLeft]
    by_cases h1 : i < 16 <;> by_cases h2 : pos ≤ i <;> by_cases h3 : i < pos + len <;>
      simp [h1, h2, h3] <;> omega
  have hvbit : ∀ j, len ≤ j → v.testBit j = false := by
    intro j hj
    exact Nat.testBit_lt_two_pow (Nat.lt_of_lt_of_le hv (Nat.pow_le_pow_right (by norm_num) hj))
  refine ⟨?_, ?_, ?_⟩
  · exact Nat.mod_eq_of_lt (Nat.or_lt_two_pow (Nat.lt_of_le_of_lt Nat.and_le_left hc) hvs)
  · apply Nat.eq_of_testBit_eq
    intro i
    simp only [Nat.testBit_and, Nat.testBit_or, Nat.testBit_shiftRight, Nat.testBit_shiftLeft,
      Nat.testBit_two_pow_sub_one, hbit]
    by_cases h : i < len
    · have e : pos + i - pos = i := by omega
      simp [h, e]
    · simp [h, hvbit i (by omega)]
  · intro i hi
    simp only [Nat.testBit_and, Nat.testBit_or, Nat.testBit_shiftLeft, hbit]
    by_cases h16 : i < 16
    · rcases hi with hi | hi
      · have : ¬ pos ≤ i := by omega
        simp [h16, this]
      · have h1 : pos ≤ i := by omega
        have h2 : ¬ i < pos + len := by omega
        simp [h16, h1, h2, hvbit (i - pos) (by omega)]
    · have hci : c.testBit i = false :=
        Nat.testBit_lt_two_pow (Nat.lt_of_lt_of_le hc (Nat.pow_le_pow_right (by norm_num) (by omega)))
      have hvi : (v <<< pos).testBit i = false :=
        Nat.testBit_lt_two_pow (Nat.lt_of_lt_of_le hvs (Nat.pow_le_pow_right (by norm_num) (by omega)))
      rw [Nat.testBit_shiftLeft] at hvi
      simp [h16, hci, hvi]

theorem updatesField_of_eq {δ : Type} (pos len v : Nat) (s s1 : Driver δ)
    (hc : s.ads1015_config < 65536) (hpl : pos + len ≤ 16) (hl : len ≤ 8)
    (hv : v < 2 ^ len)
    (hcfg : s1.ads1015_config =
      ((s.ads1015_config &&& bitNot16 (((1 <<< len) - 1) <<< pos)) |||
        ((v % 256) <<< pos)) % 65536)
    (hbus : s1.bus = s.bus) : UpdatesField pos len v s s1 := by
  have hone : (1 <<< len) = 2 ^ len := by rw [Nat.shiftLeft_eq, Nat.one_mul]
  have hv256 : v % 256 = v :=
    Nat.mod_eq_of_lt (Nat.lt_of_lt_of_le hv (Nat.pow_le_pow_right (by norm_num) hl))
  obtain ⟨h1, h2, h3⟩ := field_update s.ads1015_config pos len v hc hpl hv
  rw [hv256, hone, h1] at hcfg
  unfold UpdatesField
  rw [hone, hcfg]
  exact ⟨rfl, h2, h3, hbus⟩

/-- C6: for every 16-bit cached config word and every legal selector `v` (`v < 2 ^ len`),
each setter leaves the cached word equal to `(c AND NOT mask) OR (v << pos)` for its own
field (`ads1015_set_mux` bits 12..14, `ads1015_set_gain` bits 9..11, `ads1015_set_mode`
bit 8, `ads1015_set_data_rate` bits 5..7, `ads1015_set_irq_polarity` bit 3): the field reads
back `v`, every bit outside the field is unchanged, and the bus is untouched. -/
theorem setters_update_only_their_field {δ : Type} (s : Driver δ)
    (hc : s.ads1015_config < 65536) :
    (∀ v, v < 2 ^ 3 → UpdatesField 12 3 v s (ads1015_set_mux v s)) ∧
    (∀ v, v < 2 ^ 3 → UpdatesField 9 3 v s (ads1015_set_gain v s)) ∧
    (∀ v, v < 2 ^ 1 → UpdatesField 8 1 v s (ads1015_set_mode v s)) ∧
    (∀ v, v < 2 ^ 3 → UpdatesField 5 3 v s (ads1015_set_data_rate v s)) ∧
    (∀ v, v < 2 ^ 1 → UpdatesField 3 1 v s (ads1015_set_irq_polarity v s)) := by
  refine ⟨?_, ?_, ?_, ?_, ?_⟩ <;> intro v hv
  · exact updatesField_of_eq 12 3 v s _ hc (by norm_num) (by norm_num) hv rfl rfl
  · exact updatesField_of_eq 9 3 v s _ hc (by norm_num) (by norm_num) hv rfl rfl
  · exact updatesField_of_eq 8 1 v s _ hc (by norm_num) (by norm_num) hv rfl rfl
  · exact updatesField_of_eq 5 3 v s _ hc (by norm_num) (by norm_num) hv rfl rfl
  · exact updatesField_of_eq 3 1 v s _ hc (by norm_num) (by norm_num) hv rfl rfl

/-- Witness for C6: on the default word `0x8583` with an untouched scripted bus, selecting
gain 3 gives `0x8783` and selecting multiplexer input 4 gives `0xC583`. -/
theorem setters_update_only_their_field_witness :
    (ads1015_set_gain 3 (⟨0x8583, ⟨[], []⟩⟩ : Driver (List Nat))).ads1015_config = 0x8783 ∧
    (ads1015_set_mux 4 (⟨0x8583, ⟨[], []⟩⟩ : Driver (List Nat))).ads1015_config = 0xC583 ∧
    UpdatesField 9 3 3 (⟨0x8583, ⟨[], []⟩⟩ : Driver (List Nat))
      (ads1015_set_gain 3 ⟨0x8583, ⟨[], []⟩⟩) :=
  ⟨by decide, by decide,
    (setters_update_only_their_field (⟨0x8583, ⟨[], []⟩⟩ : Driver (List Nat))
      (by decide)).2.1 3 (by decide)⟩

/-- C7: for every 16-bit cached config word `c`, `ads1015_start` appends to the bus trace
exactly one register write, to the config register (pointer 1), of the value `c OR 0x8000`
(bit 15 set, every other bit as in `c`), sent most significant byte first; the cached word
itself is left as it was. -/
theorem start_writes_config_with_trigger {δ : Type} (D : Device δ) (s : Driver δ)
    (hc : s.ads1015_config < 65536) :
    (ads1015_start D s).bus =
      ads1015_write D ADS1015_REG_CONFIG (s.ads1015_config ||| 0x8000) s.bus ∧
    (ads1015_start D s).bus.trace = s.bus.trace ++
      [BusEvent.start, BusEvent.write 0x90, BusEvent.write 1,
       BusEvent.write ((s.ads1015_config ||| 0x8000) / 256),
       BusEvent.write ((s.ads1015_config ||| 0x8000) % 256), BusEvent.stop] ∧
    (s.ads1015_config ||| 0x8000) < 65536 ∧
    (s.ads1015_config ||| 0x8000).testBit 15 = true ∧
    (∀ i, i ≠ 15 → (s.ads1015_config ||| 0x8000).testBit i = s.ads1015_config.testBit i) ∧
    (ads1015_start D s).ads1015_config = s.ads1015_config := by
  have h15 : (0x8000 : Nat) = 2 ^ 15 := by norm_num
  have hlt : (s.ads1015_config ||| 0x8000) < 65536 :=
    Nat.or_lt_two_pow (n := 16) hc (by norm_num)
  have hbus : (ads1015_start D s).bus =
      ads1015_write D ADS1015_REG_CONFIG (s.ads1015_config ||| 0x8000) s.bus := rfl
  refine ⟨hbus, ?_, hlt, ?_, ?_, rfl⟩
  · rw [hbus, ads1015_write_trace, Nat.mod_eq_of_lt hlt]
    simp [ADS1015_REG_CONFIG]
  · rw [h15, Nat.testBit_or, Nat.testBit_two_pow_self, Bool.or_true]
  · intro i hi
    rw [h15, Nat.testBit_or, Nat.testBit_two_pow_of_ne (Ne.symm hi), Bool.or_false]

/-- Witness for C7: from the cached word `0x0583` the bytes `0x85`, `0x83` go to pointer 1. -/
theorem start_writes_config_with_trigger_witness :
    (ads1015_start scriptDevice ⟨0x0583, ⟨[], []⟩⟩).bus.trace =
      [BusEvent.start, BusEvent.write 0x90, BusEvent.write 1, BusEvent.write 0x85,
       BusEvent.write 0x83, BusEvent.stop] ∧
    (ads1015_start scriptDevice ⟨0x0583, ⟨[], []⟩⟩).ads1015_config = 0x0583 :=
  ⟨(start_writes_config_with_trigger scriptDevice ⟨0x0583, ⟨[], []⟩⟩ (by decide)).2.1.trans
      (by decide),
    (start_writes_config_with_trigger scriptDevice ⟨0x0583, ⟨[], []⟩⟩ (by decide)).2.2.2.2.2⟩

/-! ## The transmit queue -/

/-- C10: each ring-buffer index has exactly one writer.  A completed `uart_putc` leaves
`tx_tail` unchanged and, in the queue, changes only `tx_head` and the buffer slot at the new
head index (it also sets the interrupt-enable bit and writes nothing to the data register);
the drain interrupt leaves `tx_head` and every buffer slot unchanged. -/
theorem ring_indices_single_writer (N : Nat) (s : UartState) :
    (∀ byte s1, uart_putc N byte s = some s1 →
      s1.tx_tail = s.tx_tail ∧
      s1.tx_buff.length = s.tx_buff.length ∧
      (∀ i, i ≠ s1.tx_head → s1.tx_buff[i]? = s.tx_buff[i]?) ∧
      s1.udr = s.udr ∧ s1.udrie = true) ∧
    (USART_UDRE_vect N s).tx_head = s.tx_head ∧
    (USART_UDRE_vect N s).tx_buff = s.tx_buff := by
  refine ⟨?_, ?_, ?_⟩
  · intro byte s1 h
    unfold uart_putc at h
    simp only [] at h
    split at h
    · exact absurd h (by simp)
    · have h1 := Option.some.inj h
      subst h1
      refine ⟨rfl, by simp, ?_, rfl, rfl⟩
      intro i hi
      simp only [] at hi
      exact List.getElem?_set_ne (Ne.symm hi)
  · unfold USART_UDRE_vect
    split <;> rfl
  · unfold USART_UDRE_vect
    split <;> rfl

/-- Witness for C10 at capacity 4: the first `uart_putc` after reset completes, stores
into slot 1 only and keeps `tx_tail`. -/
theorem ring_indices_single_writer_witness :
    uart_putc 4 65 (uart_reset 4) = some ⟨[0, 65, 0, 0], 1, 0, true, []⟩ ∧
    (⟨[0, 65, 0, 0], 1, 0, true, []⟩ : UartState).tx_tail = (uart_reset 4).tx_tail :=
  ⟨by decide,
    ((ring_indices_single_writer 4 (uart_reset 4)).1 65 ⟨[0, 65, 0, 0], 1, 0, true, []⟩
      (by decide)).1⟩

theorem mask_eq_mod (k x : Nat) (hk : k ≤ 8) :
    ((x + 1) &&& (2 ^ k - 1)) % 256 = (x + 1) % 2 ^ k := by
  rw [Nat.and_pow_two_sub_one_eq_mod]
  apply Nat.mod_eq_of_lt
  have h1 : (x + 1) % 2 ^ k < 2 ^ k := Nat.mod_lt _ (Nat.pow_pos (by norm_num))
  have h2 : (2 : Nat) ^ k ≤ 2 ^ 8 := Nat.pow_le_pow_right (by norm_num) hk
  omega

theorem mod_ne_of_lt_of_lt (N a b : Nat) (hab : a < b) (hb : b < a + N) : a % N ≠ b % N := by
  intro h
  have hd : N ∣ b - a := (Nat.modEq_iff_dvd' (Nat.le_of_lt hab)).1 h
  have hle : N ≤ b - a := Nat.le_of_dvd (by omega) hd
  omega

theorem take_succ_getD (l : List Nat) (d : Nat) (h : d < l.length) :
    l.take (d + 1) = l.take d ++ [l.getD d 0] := by
  rw [List.take_succ]
  simp [List.getElem?_eq_getElem h]

theorem ringInv_put (k t p d : Nat) (out0 bytes : List Nat) (s : UartState) (hk : k ≤ 8)
    (hinv : RingInv (2 ^ k) t out0 bytes p d s) (hroom : p < d + (2 ^ k - 1))
    (hp : p < bytes.length) (hb : bytes.getD p 0 < 256) :
    ∃ s1, uart_putc (2 ^ k) (bytes.getD p 0) s = some s1 ∧
      RingInv (2 ^ k) t out0 bytes (p + 1) d s1 := by
  obtain ⟨h1, h2, h3, hh, ht, hl, hu, hs⟩ := hinv
  have hN : 0 < 2 ^ k := Nat.pow_pos (by norm_num)
  have hhead : ((s.tx_head + 1) &&& (2 ^ k - 1)) % 256 = (t + (p + 1)) % 2 ^ k := by
    rw [mask_eq_mod k _ hk, hh, Nat.mod_add_mod, Nat.add_assoc]
  have hne : (t + (p + 1)) % 2 ^ k ≠ s.tx_tail := by
    rw [ht]
    exact Ne.symm (mod_ne_of_lt_of_lt _ _ _ (by omega) (by omega))
  unfold uart_putc
  simp only [hhead, hne, if_false]
  refine ⟨_, rfl, h1.trans (Nat.le_succ p), by omega, hp, rfl, ht, ?_, hu, ?_⟩
  · simp [hl]
  · intro i hdi hip
    have hidx : t + i + 1 = t + (i + 1) := by omega
    by_cases hi : i = p
    · subst hi
      simp only [List.getD_eq_getElem?_getD]
      rw [hidx, List.getElem?_set_self (by rw [hl]; exact Nat.mod_lt _ hN)]
      simp only [List.getD_eq_getElem?_getD] at hb
      simp [Nat.mod_eq_of_lt hb]
    · have hlt : i < p := by omega
      have hne2 : (t + (p + 1)) % 2 ^ k ≠ (t + i + 1) % 2 ^ k :=
        Ne.symm (mod_ne_of_lt_of_lt _ _ _ (by omega) (by omega))
      have := hs i hdi hlt
      simp only [List.getD_eq_getElem?_getD] at this ⊢
      rw [List.getElem?_set_ne hne2]
      exact this

theorem ringInv_full_iff (k t p d : Nat) (out0 bytes : List Nat) (s : UartState) (hk : k ≤ 8)
    (hinv : RingInv (2 ^ k) t out0 bytes p d s) (b : Nat) :
    uart_putc (2 ^ k) b s = none ↔ p = d + (2 ^ k - 1) := by
  obtain ⟨h1, h2, h3, hh, ht, hl, hu, hs⟩ := hinv
  have hN : 0 < 2 ^ k := Nat.pow_pos (by norm_num)
  have hhead : ((s.tx_head + 1) &&& (2 ^ k - 1)) % 256 = (t + (p + 1)) % 2 ^ k := by
    rw [mask_eq_mod k _ hk, hh, Nat.mod_add_mod, Nat.add_assoc]
  unfold uart_putc
  simp only [hhead, ht]
  constructor
  · intro h
    by_contra hne
    have : (t + d) % 2 ^ k ≠ (t + (p + 1)) % 2 ^ k :=
      mod_ne_of_lt_of_lt _ _ _ (by omega) (by omega)
    split at h
    · rename_i heq
      exact this heq.symm
    · exact absurd h (by simp)
  · intro h
    have e : t + (p + 1) = t + d + 2 ^ k := by omega
    rw [e, Nat.add_mod_right]
    simp

theorem ringInv_drain (k t p d : Nat) (out0 bytes : List Nat) (s : UartState) (hk : k ≤ 8)
    (hinv : RingInv (2 ^ k) t out0 bytes p d s) (hdp : d < p) :
    RingInv (2 ^ k) t out0 bytes p (d + 1) (USART_UDRE_vect (2 ^ k) s) := by
  obtain ⟨h1, h2, h3, hh, ht, hl, hu, hs⟩ := hinv
  have hne : s.tx_head ≠ s.tx_tail := by
    rw [hh, ht]
    exact Ne.symm (mod_ne_of_lt_of_lt _ _ _ (by omega) (by omega))
  have htail : ((s.tx_tail + 1) &&& (2 ^ k - 1)) % 256 = (t + (d + 1)) % 2 ^ k := by
    rw [mask_eq_mod k _ hk, ht, Nat.mod_add_mod, Nat.add_assoc]
  unfold USART_UDRE_vect
  simp only [hne, ne_eq, not_false_eq_true, if_true, htail]
  refine ⟨hdp, by omega, h3, hh, rfl, hl, ?_, ?_⟩
  · have hslot := hs d (Nat.le_refl d) hdp
    have hidx : t + d + 1 = t + (d + 1) := by omega
    rw [hidx] at hslot
    simp only [hu, hslot, take_succ_getD bytes d (by omega), List.append_assoc]
  · intro i hdi hip
    exact hs i (by omega) hip

theorem ringInv_drain_empty (N t p : Nat) (out0 bytes : List Nat) (s : UartState)
    (hinv : RingInv N t out0 bytes p p s) :
    RingInv N t out0 bytes p p (USART_UDRE_vect N s) := by
  obtain ⟨h1, h2, h3, hh, ht, hl, hu, hs⟩ := hinv
  have he : s.tx_head = s.tx_tail := by rw [hh, ht]
  unfold USART_UDRE_vect
  simp only [he, ne_eq, not_true_eq_false, if_false]
  exact ⟨h1, h2, h3, hh.symm ▸ he ▸ rfl, ht, hl, hu, hs⟩

theorem drop_eq_getD_cons (l : List Nat) (p : Nat) (h : p < l.length) :
    l.drop p = l.getD p 0 :: l.drop (p + 1) := by
  rw [List.drop_eq_getElem_cons h]
  simp [List.getElem?_eq_getElem h]

theorem getD_lt_of_forall (l : List Nat) (hb : ∀ b ∈ l, b < 256) (p : Nat) (h : p < l.length) :
    l.getD p 0 < 256 := by
  rw [List.getD_eq_getElem _ _ h]
  exact hb _ (List.getElem_mem h)

theorem ringInv_run (k t : Nat) (out0 bytes : List Nat) (hk : k ≤ 8)
    (hb : ∀ b ∈ bytes, b < 256) :
    ∀ (ticks : List Tick) (p d : Nat) (s : UartState),
      RingInv (2 ^ k) t out0 bytes p d s →
      ∃ p1 d1, RingInv (2 ^ k) t out0 bytes p1 d1 (run (2 ^ k) ticks (bytes.drop p) s).1 ∧
        (run (2 ^ k) ticks (bytes.drop p) s).2 = bytes.drop p1 := by
  intro ticks
  induction ticks with
  | nil =>
    intro p d s hinv
    exact ⟨p, d, by simpa [run] using hinv, by simp [run]⟩
  | cons tk ts ih =>
    intro p d s hinv
    cases tk with
    | producer =>
      by_cases hp : p < bytes.length
      · rw [drop_eq_getD_cons bytes p hp]
        by_cases hroom : p < d + (2 ^ k - 1)
        · obtain ⟨s1, hput, hinv1⟩ := ringInv_put k t p d out0 bytes s hk hinv hroom hp
            (getD_lt_of_forall bytes hb p hp)
          simp only [run, hput]
          exact ih (p + 1) d s1 hinv1
        · have hfull : uart_putc (2 ^ k) (bytes.getD p 0) s = none :=
            (ringInv_full_iff k t p d out0 bytes s hk hinv _).2 (by
              have := hinv.2.1
              omega)
          simp only [run, hfull]
          rw [← drop_eq_getD_cons bytes p hp]
          exact ih p d s hinv
      · have hnil : bytes.drop p = [] := List.drop_eq_nil_of_le (by omega)
        rw [hnil]
        simp only [run]
        rw [← hnil]
        exact ih p d s hinv
    | drain =>
      simp only [run]
      by_cases hdp : d < p
      · exact ih p (d + 1) _ (ringInv_drain k t p d out0 bytes s hk hinv hdp)
      · have hpd : d = p := Nat.le_antisymm hinv.1 (by omega)
        subst hpd
        exact ih d d _ (ringInv_drain_empty _ t d out0 bytes s hinv)

theorem ringInv_init (N t : Nat) (out0 bytes buff : List Nat) (ie : Bool)
    (ht : t < N) (hl : buff.length = N) :
    RingInv N t out0 bytes 0 0 ⟨buff, t, t, ie, out0⟩ := by
  refine ⟨Nat.le_refl 0, by omega, Nat.zero_le _, ?_, ?_, hl, by simp, ?_⟩
  · simp [Nat.mod_eq_of_lt ht]
  · simp [Nat.mod_eq_of_lt ht]
  · intro i h1 h2
    omega

theorem run_append (N : Nat) (a b : List Tick) :
    ∀ (pending : List Nat) (s : UartState),
      run N (a ++ b) pending s = run N b (run N a pending s).2 (run N a pending s).1 := by
  induction a with
  | nil => intro pending s; simp [run]
  | cons tk ts ih =>
    intro pending s
    cases tk with
    | producer =>
      cases pending with
      | nil => simp only [List.cons_append, run]; exact ih [] s
      | cons x xs =>
        simp only [List.cons_append, run]
        cases uart_putc N x s with
        | none => exact ih (x :: xs) s
        | some s1 => exact ih xs s1
    | drain => simp only [List.cons_append, run]; exact ih pending _

theorem ringInv_puts (k t d : Nat) (out0 bytes : List Nat) (hk : k ≤ 8)
    (hb : ∀ b ∈ bytes, b < 256) :
    ∀ (j p : Nat) (s : UartState), RingInv (2 ^ k) t out0 bytes p d s →
      p + j ≤ d + (2 ^ k - 1) → p + j ≤ bytes.length →
      RingInv (2 ^ k) t out0 bytes (p + j) d
        (run (2 ^ k) (List.replicate j Tick.producer) (bytes.drop p) s).1 ∧
      (run (2 ^ k) (List.replicate j Tick.producer) (bytes.drop p) s).2 =
        bytes.drop (p + j) := by
  intro j
  induction j with
  | zero =>
    intro p s hinv _ _
    simpa [run] using hinv
  | succ j ih =>
    intro p s hinv h1 h2
    have hp : p < bytes.length := by omega
    obtain ⟨s1, hput, hinv1⟩ := ringInv_put k t p d out0 bytes s hk hinv (by omega) hp
      (getD_lt_of_forall bytes hb p hp)
    rw [drop_eq_getD_cons bytes p hp]
    simp only [List.replicate_succ, run, hput]
    have e : p + (j + 1) = p + 1 + j := by omega
    rw [e]
    exact ih (p + 1) s1 hinv1 (by omega) (by omega)

theorem ringInv_drains (k t p : Nat) (out0 bytes pending : List Nat) (hk : k ≤ 8) :
    ∀ (j d : Nat) (s : UartState), RingInv (2 ^ k) t out0 bytes p d s → d + j ≤ p →
      RingInv (2 ^ k) t out0 bytes p (d + j)
        (run (2 ^ k) (List.replicate j Tick.drain) pending s).1 ∧
      (run (2 ^ k) (List.replicate j Tick.drain) pending s).2 = pending := by
  intro j
  induction j with
  | zero =>
    intro d s hinv _
    simpa [run] using hinv
  | succ j ih =>
    intro d s hinv h1
    simp only [List.replicate_succ, run]
    have e : d + (j + 1) = d + 1 + j := by omega
    rw [e]
    exact ih (d + 1) _ (ringInv_drain k t p d out0 bytes s hk hinv (by omega)) (by omega)

theorem ringInv_drains_empty (N t p : Nat) (out0 bytes pending : List Nat) :
    ∀ (j : Nat) (s : UartState), RingInv N t out0 bytes p p s →
      RingInv N t out0 bytes p p (run N (List.replicate j Tick.drain) pending s).1 ∧
      (run N (List.replicate j Tick.drain) pending s).2 = pending := by
  intro j
  induction j with
  | zero =>
    intro s hinv
    simpa [run] using hinv
  | succ j ih =>
    intro s hinv
    simp only [List.replicate_succ, run]
    exact ih _ (ringInv_drain_empty N t p out0 bytes s hinv)

/-- C8: the transmit queue is first-in first-out without loss or duplication.  From the
reset state, under every schedule of producer and drain-interrupt steps (a `uart_putc` on a
full queue stays blocked until a drain makes room), the bytes written to the data register
are the first `d` of the bytes passed to `uart_putc`, where `d` does not exceed the number
`p` of completed calls: in order, a prefix.  Nothing is lost: after capacity further drain
steps every byte of a completed call has been emitted and the queue is empty.  Moreover,
from an empty queue at any index `t`,
`n` puts followed by `n` drains (`n` at most capacity - 1) emit exactly the `n` bytes in
their order and leave the queue empty, also when the indices wrap around. -/
theorem txqueue_fifo (k : Nat) (bytes : List Nat) (hk : k ≤ 8) (hb : ∀ b ∈ bytes, b < 256) :
    (∀ ticks : List Tick,
      (run (2 ^ k) ticks bytes (uart_reset (2 ^ k))).1.udr <+: bytes ∧
      ∃ p d, d ≤ p ∧ (run (2 ^ k) ticks bytes (uart_reset (2 ^ k))).2 = bytes.drop p ∧
        (run (2 ^ k) ticks bytes (uart_reset (2 ^ k))).1.udr = bytes.take d) ∧
    (∀ ticks : List Tick,
      (run (2 ^ k) (ticks ++ List.replicate (2 ^ k) Tick.drain) bytes
          (uart_reset (2 ^ k))).1.udr =
        bytes.take (bytes.length -
          (run (2 ^ k) (ticks ++ List.replicate (2 ^ k) Tick.drain) bytes
            (uart_reset (2 ^ k))).2.length) ∧
      (run (2 ^ k) (ticks ++ List.replicate (2 ^ k) Tick.drain) bytes
          (uart_reset (2 ^ k))).1.tx_head =
        (run (2 ^ k) (ticks ++ List.replicate (2 ^ k) Tick.drain) bytes
          (uart_reset (2 ^ k))).1.tx_tail) ∧
    (∀ (t : Nat) (buff out0 : List Nat) (ie : Bool),
      t < 2 ^ k → buff.length = 2 ^ k → bytes.length ≤ 2 ^ k - 1 →
      (run (2 ^ k) (List.replicate bytes.length Tick.producer ++
          List.replicate bytes.length Tick.drain) bytes ⟨buff, t, t, ie, out0⟩).1.udr =
        out0 ++ bytes ∧
      (run (2 ^ k) (List.replicate bytes.length Tick.producer ++
          List.replicate bytes.length Tick.drain) bytes ⟨buff, t, t, ie, out0⟩).1.tx_head =
        (run (2 ^ k) (List.replicate bytes.length Tick.producer ++
          List.replicate bytes.length Tick.drain) bytes ⟨buff, t, t, ie, out0⟩).1.tx_tail ∧
      (run (2 ^ k) (List.replicate bytes.length Tick.producer ++
          List.replicate bytes.length Tick.drain) bytes ⟨buff, t, t, ie, out0⟩).2 = []) := by
  have hN : 0 < 2 ^ k := Nat.pow_pos (by norm_num)
  have h0 : RingInv (2 ^ k) 0 [] bytes 0 0 (uart_reset (2 ^ k)) :=
    ringInv_init (2 ^ k) 0 [] bytes _ false hN (by simp)
  refine ⟨?_, ?_, ?_⟩
  · intro ticks
    obtain ⟨p, d, hinv, hpend⟩ := ringInv_run k 0 [] bytes hk hb ticks 0 0 _ h0
    rw [List.drop_zero] at hinv hpend
    have hu : (run (2 ^ k) ticks bytes (uart_reset (2 ^ k))).1.udr = bytes.take d := by
      simpa using hinv.2.2.2.2.2.2.1
    refine ⟨?_, p, d, hinv.1, hpend, hu⟩
    rw [hu]
    exact List.take_prefix d bytes
  · intro ticks
    obtain ⟨p, d, hinv, hpend⟩ := ringInv_run k 0 [] bytes hk hb ticks 0 0 _ h0
    rw [List.drop_zero] at hinv hpend
    have hdp := hinv.1
    have hcap := hinv.2.1
    have hpl := hinv.2.2.1
    have e : 2 ^ k = (p - d) + (2 ^ k - (p - d)) := by omega
    obtain ⟨hinv1, hpend1⟩ := ringInv_drains k 0 p [] bytes (bytes.drop p) hk (p - d) d _
      hinv (by omega)
    have edp : d + (p - d) = p := by omega
    rw [edp] at hinv1
    obtain ⟨hinv2, hpend2⟩ := ringInv_drains_empty (2 ^ k) 0 p [] bytes (bytes.drop p)
      (2 ^ k - (p - d)) _ hinv1
    have hrun : run (2 ^ k) (ticks ++ List.replicate (2 ^ k) Tick.drain) bytes
        (uart_reset (2 ^ k)) =
        run (2 ^ k) (List.replicate (2 ^ k - (p - d)) Tick.drain) (bytes.drop p)
          (run (2 ^ k) (List.replicate (p - d) Tick.drain) (bytes.drop p)
            (run (2 ^ k) ticks bytes (uart_reset (2 ^ k))).1).1 := by
      have hrep : List.replicate (2 ^ k) Tick.drain =
          List.replicate (p - d) Tick.drain ++
            List.replicate (2 ^ k - (p - d)) Tick.drain := by
        rw [← List.replicate_add, ← e]
      rw [run_append, hpend, hrep, run_append, hpend1]
    rw [hrun, hpend2]
    obtain ⟨-, -, -, hh, htl, -, hu, -⟩ := hinv2
    refine ⟨?_, by rw [hh, htl]⟩
    rw [hu, List.length_drop]
    have : bytes.length - (bytes.length - p) = p := by omega
    rw [this, List.nil_append]
  · intro t buff out0 ie ht hl hn
    have ht0 : RingInv (2 ^ k) t out0 bytes 0 0 ⟨buff, t, t, ie, out0⟩ :=
      ringInv_init (2 ^ k) t out0 bytes buff ie ht hl
    obtain ⟨hinv1, hpend1⟩ := ringInv_puts k t 0 out0 bytes hk hb bytes.length 0 _ ht0
      (by omega) (by omega)
    rw [List.drop_zero] at hinv1 hpend1
    rw [Nat.zero_add] at hinv1 hpend1
    obtain ⟨hinv2, hpend2⟩ := ringInv_drains k t bytes.length out0 bytes
      (run (2 ^ k) (List.replicate bytes.length Tick.producer) bytes ⟨buff, t, t, ie, out0⟩).2
      hk bytes.length 0 _ hinv1 (by omega)
    rw [Nat.zero_add] at hinv2
    rw [run_append]
    obtain ⟨-, -, -, hh, htl, -, hu, -⟩ := hinv2
    refine ⟨?_, ?_, ?_⟩
    · rw [hu, List.take_length]
    · rw [hh, htl]
    · rw [hpend2, hpend1, List.drop_length]

/-- Witness for C8 at capacity 4: an interleaved schedule emits a prefix of the bytes, and
three puts followed by three drains from the empty queue at index 2 (the head wraps from 3 to
0 and 1) emit the three bytes in order. -/
theorem txqueue_fifo_witness :
    (run (2 ^ 2) [Tick.producer, Tick.producer, Tick.drain, Tick.producer, Tick.producer,
        Tick.producer, Tick.drain] [10, 20, 30, 40, 50] (uart_reset (2 ^ 2))).1.udr
      <+: [10, 20, 30, 40, 50] ∧
    (run (2 ^ 2) (List.replicate 3 Tick.producer ++ List.replicate 3 Tick.drain) [10, 20, 30]
        ⟨[0, 0, 0, 0], 2, 2, false, []⟩).1.udr = [10, 20, 30] ∧
    (run (2 ^ 2) (List.replicate 3 Tick.producer ++ List.replicate 3 Tick.drain) [10, 20, 30]
        ⟨[0, 0, 0, 0], 2, 2, false, []⟩).1.tx_head = 1 :=
  ⟨((txqueue_fifo 2 [10, 20, 30, 40, 50] (by decide) (by decide)).1 _).1,
    ((txqueue_fifo 2 [10, 20, 30] (by decide) (by decide)).2.2 2 [0, 0, 0, 0] [] false
      (by decide) (by decide) (by decide)).1,
    by decide⟩

theorem run_producer_full (k t p d : Nat) (out0 bytes : List Nat) (s : UartState)
    (hk : k ≤ 8) (hinv : RingInv (2 ^ k) t out0 bytes p d s) (hfull : p = d + (2 ^ k - 1)) :
    ∀ (j : Nat) (pending : List Nat),
      run (2 ^ k) (List.replicate j Tick.producer) pending s = (s, pending) := by
  intro j
  induction j with
  | zero => intro pending; simp [run]
  | succ j ih =>
    intro pending
    cases pending with
    | nil => simp only [List.replicate_succ, run]; exact ih []
    | cons x xs =>
      have hx := (ringInv_full_iff k t p d out0 bytes s hk hinv x).2 hfull
      simp only [List.replicate_succ, run, hx]
      exact ih (x :: xs)

theorem putc_blocks_iff_mask (k : Nat) (hk : k ≤ 8) (b : Nat) (s : UartState) :
    uart_putc (2 ^ k) b s = none ↔ (s.tx_head + 1) &&& (2 ^ k - 1) = s.tx_tail := by
  have e : ((s.tx_head + 1) &&& (2 ^ k - 1)) % 256 = (s.tx_head + 1) &&& (2 ^ k - 1) := by
    rw [mask_eq_mod k _ hk, Nat.and_pow_two_sub_one_eq_mod]
  unfold uart_putc
  simp only [e]
  constructor
  · intro h
    split at h
    · assumption
    · exact absurd h (by simp)
  · intro h
    simp [h]

/-- C9: the usable capacity of the transmit queue is capacity - 1.  In every state reached
from reset, `uart_putc` blocks exactly when the queue holds capacity - 1 undrained bytes
(completed puts minus drained bytes), which is exactly when
`(head + 1) AND (capacity - 1) = tail`.  From the empty queue, `j` consecutive attempts
complete `min j (capacity - 1)` puts, and after capacity - 1 puts every further put blocks.
After filling to that limit and draining one byte, exactly one further put completes, however
often the producer tries again. -/
theorem txqueue_usable_capacity (k : Nat) (bytes : List Nat) (hk : k ≤ 8)
    (hb : ∀ b ∈ bytes, b < 256) :
    (∀ (ticks : List Tick) (b : Nat),
      (uart_putc (2 ^ k) b (run (2 ^ k) ticks bytes (uart_reset (2 ^ k))).1 = none ↔
        bytes.length - (run (2 ^ k) ticks bytes (uart_reset (2 ^ k))).2.length -
          (run (2 ^ k) ticks bytes (uart_reset (2 ^ k))).1.udr.length = 2 ^ k - 1) ∧
      (uart_putc (2 ^ k) b (run (2 ^ k) ticks bytes (uart_reset (2 ^ k))).1 = none ↔
        ((run (2 ^ k) ticks bytes (uart_reset (2 ^ k))).1.tx_head + 1) &&& (2 ^ k - 1) =
          (run (2 ^ k) ticks bytes (uart_reset (2 ^ k))).1.tx_tail)) ∧
    (2 ^ k - 1 ≤ bytes.length →
      (∀ j, (run (2 ^ k) (List.replicate j Tick.producer) bytes (uart_reset (2 ^ k))).2 =
        bytes.drop (min j (2 ^ k - 1))) ∧
      (∀ b, uart_putc (2 ^ k) b
        (run (2 ^ k) (List.replicate (2 ^ k - 1) Tick.producer) bytes
          (uart_reset (2 ^ k))).1 = none)) ∧
    (1 ≤ k → 2 ^ k ≤ bytes.length → ∀ j,
      (run (2 ^ k) (List.replicate (2 ^ k - 1) Tick.producer ++
          (Tick.drain :: Tick.producer :: List.replicate j Tick.producer))
        bytes (uart_reset (2 ^ k))).2 = bytes.drop (2 ^ k) ∧
      (run (2 ^ k) (List.replicate (2 ^ k - 1) Tick.producer ++
          (Tick.drain :: Tick.producer :: List.replicate j Tick.producer))
        bytes (uart_reset (2 ^ k))).1.udr = bytes.take 1 ∧
      (∀ b, uart_putc (2 ^ k) b
        (run (2 ^ k) (List.replicate (2 ^ k - 1) Tick.producer ++
            (Tick.drain :: Tick.producer :: List.replicate j Tick.producer))
          bytes (uart_reset (2 ^ k))).1 = none)) := by
  have hN : 0 < 2 ^ k := Nat.pow_pos (by norm_num)
  have h0 : RingInv (2 ^ k) 0 [] bytes 0 0 (uart_reset (2 ^ k)) :=
    ringInv_init (2 ^ k) 0 [] bytes _ false hN (by simp)
  refine ⟨?_, ?_, ?_⟩
  · intro ticks b
    obtain ⟨p, d, hinv, hpend⟩ := ringInv_run k 0 [] bytes hk hb ticks 0 0 _ h0
    rw [List.drop_zero] at hinv hpend
    refine ⟨?_, putc_blocks_iff_mask k hk b _⟩
    rw [ringInv_full_iff k 0 p d [] bytes _ hk hinv b, hpend]
    obtain ⟨h1, h2, h3, -, -, -, hu, -⟩ := hinv
    rw [hu]
    simp only [List.nil_append, List.length_drop, List.length_take]
    omega
  · intro hlen
    obtain ⟨hinvF, hpendF⟩ := ringInv_puts k 0 0 [] bytes hk hb (2 ^ k - 1) 0 _ h0
      (by omega) (by omega)
    rw [List.drop_zero, Nat.zero_add] at hinvF hpendF
    constructor
    · intro j
      by_cases hj : j ≤ 2 ^ k - 1
      · obtain ⟨-, hpend⟩ := ringInv_puts k 0 0 [] bytes hk hb j 0 _ h0 (by omega) (by omega)
        rw [List.drop_zero, Nat.zero_add] at hpend
        rw [hpend, Nat.min_eq_left hj]
      · have e : j = (2 ^ k - 1) + (j - (2 ^ k - 1)) := by omega
        rw [e, List.replicate_add, run_append,
          run_producer_full k 0 (2 ^ k - 1) 0 [] bytes _ hk hinvF (by omega), hpendF]
        congr 1
        omega
    · intro b
      exact (ringInv_full_iff k 0 (2 ^ k - 1) 0 [] bytes _ hk hinvF b).2 (by omega)
  · intro hk1 hlen j
    have h2 : 2 ≤ 2 ^ k := by
      calc 2 = 2 ^ 1 := by norm_num
        _ ≤ 2 ^ k := Nat.pow_le_pow_right (by norm_num) hk1
    obtain ⟨hinvF, hpendF⟩ := ringInv_puts k 0 0 [] bytes hk hb (2 ^ k - 1) 0 _ h0
      (by omega) (by omega)
    rw [List.drop_zero, Nat.zero_add] at hinvF hpendF
    obtain ⟨hinvD, hpendD⟩ := ringInv_drains k 0 (2 ^ k - 1) [] bytes
      (bytes.drop (2 ^ k - 1)) hk 1 0 _ hinvF (by omega)
    rw [Nat.zero_add] at hinvD
    obtain ⟨hinvP, hpendP⟩ := ringInv_puts k 0 1 [] bytes hk hb 1 (2 ^ k - 1) _ hinvD
      (by omega) (by omega)
    have eN : 2 ^ k - 1 + 1 = 2 ^ k := by omega
    rw [eN] at hinvP hpendP
    have hstuck := run_producer_full k 0 (2 ^ k) 1 [] bytes _ hk hinvP (by omega) j
      (bytes.drop (2 ^ k))
    have hrun : run (2 ^ k) (List.replicate (2 ^ k - 1) Tick.producer ++
          (Tick.drain :: Tick.producer :: List.replicate j Tick.producer))
        bytes (uart_reset (2 ^ k)) =
        ((run (2 ^ k) (List.replicate 1 Tick.producer) (bytes.drop (2 ^ k - 1))
          (run (2 ^ k) (List.replicate 1 Tick.drain) (bytes.drop (2 ^ k - 1))
            (run (2 ^ k) (List.replicate (2 ^ k - 1) Tick.producer) bytes
              (uart_reset (2 ^ k))).1).1).1, bytes.drop (2 ^ k)) := by
      have e1 : Tick.drain :: Tick.producer :: List.replicate j Tick.producer =
          List.replicate 1 Tick.drain ++
            (List.replicate 1 Tick.producer ++ List.replicate j Tick.producer) := rfl
      rw [e1, run_append, run_append, run_append, hpendF, hpendD, hpendP, hstuck]
    rw [hrun]
    refine ⟨rfl, ?_, ?_⟩
    · simpa using hinvP.2.2.2.2.2.2.1
    · intro b
      exact (ringInv_full_iff k 0 (2 ^ k) 1 [] bytes _ hk hinvP b).2 (by omega)

/-- Witness for C9 at capacity 4 (usable 3): after three puts every further put blocks, and
after three puts and one drain exactly one of the two remaining bytes gets in. -/
theorem txqueue_usable_capacity_witness :
    uart_putc (2 ^ 2) 4
      (run (2 ^ 2) (List.replicate (2 ^ 2 - 1) Tick.producer) [1, 2, 3, 4, 5]
        (uart_reset (2 ^ 2))).1 = none ∧
    (run (2 ^ 2) (List.replicate (2 ^ 2 - 1) Tick.producer ++
        (Tick.drain :: Tick.producer :: List.replicate 1 Tick.producer))
      [1, 2, 3, 4, 5] (uart_reset (2 ^ 2))).2 = [5] :=
  ⟨((txqueue_usable_capacity 2 [1, 2, 3, 4, 5] (by decide) (by decide)).2.1 (by decide)).2 4,
    ((txqueue_usable_capacity 2 [1, 2, 3, 4, 5] (by decide) (by decide)).2.2
      (by decide) (by decide) 1).1⟩

/-- C11: the drain interrupt step.  On an empty queue (`head = tail`) it writes nothing to
the data register, leaves head, tail and the buffer unchanged and disables the buffer-empty
interrupt.  Otherwise it sets tail to `(tail + 1) AND (capacity - 1)`, writes the byte stored
in that slot to the data register and leaves head, the buffer and the interrupt-enable bit as
they were. -/
theorem drain_step (N : Nat) (s : UartState) (hN : N ≤ 256) :
    (s.tx_head = s.tx_tail →
      (USART_UDRE_vect N s).udr = s.udr ∧
      (USART_UDRE_vect N s).tx_head = s.tx_head ∧
      (USART_UDRE_vect N s).tx_tail = s.tx_tail ∧
      (USART_UDRE_vect N s).tx_buff = s.tx_buff ∧
      (USART_UDRE_vect N s).udrie = false) ∧
    (s.tx_head ≠ s.tx_tail →
      (USART_UDRE_vect N s).tx_tail = (s.tx_tail + 1) &&& (N - 1) ∧
      (USART_UDRE_vect N s).udr =
        s.udr ++ [s.tx_buff.getD ((s.tx_tail + 1) &&& (N - 1)) 0] ∧
      (USART_UDRE_vect N s).udrie = s.udrie ∧
      (USART_UDRE_vect N s).tx_head = s.tx_head ∧
      (USART_UDRE_vect N s).tx_buff = s.tx_buff) := by
  have hmask : ((s.tx_tail + 1) &&& (N - 1)) % 256 = (s.tx_tail + 1) &&& (N - 1) := by
    apply Nat.mod_eq_of_lt
    have : (s.tx_tail + 1) &&& (N - 1) ≤ N - 1 := Nat.and_le_right
    omega
  constructor
  · intro h
    unfold USART_UDRE_vect
    simp [h]
  · intro h
    unfold USART_UDRE_vect
    simp [h, hmask]

/-- Witness for C11 at capacity 4: with two bytes queued in slots 1 and 2 the step moves
tail from 0 to 1 and emits the byte of slot 1; on the empty queue it only clears the
interrupt-enable bit. -/
theorem drain_step_witness :
    USART_UDRE_vect 4 ⟨[0, 65, 66, 0], 2, 0, true, []⟩ = ⟨[0, 65, 66, 0], 2, 1, true, [65]⟩ ∧
    (USART_UDRE_vect 4 ⟨[0, 65, 66, 0], 2, 2, true, [65, 66]⟩).udrie = false ∧
    (USART_UDRE_vect 4 ⟨[0, 65, 66, 0], 2, 0, true, []⟩).tx_tail = (0 + 1) &&& (4 - 1) :=
  ⟨by decide,
    ((drain_step 4 ⟨[0, 65, 66, 0], 2, 2, true, [65, 66]⟩ (by decide)).1 rfl).2.2.2.2,
    ((drain_step 4 ⟨[0, 65, 66, 0], 2, 0, true, []⟩ (by decide)).2 (by decide)).1⟩

/-! ## Bus traces of the register operations -/

/-- C12: for every register pointer `reg` (a byte) and every 16-bit value `v`,
`ads1015_write reg v` adds to the bus trace exactly
`[start, write 0x90, write reg, write (v >> 8), write (v AND 0xFF), stop]`, where `0x90` is
the device address `0b1001000` shifted left by one with the write direction bit 0, and the
two data bytes satisfy `hi * 256 + lo = v`. -/
theorem write_bus_trace {δ : Type} (D : Device δ) (reg v : Nat) (b : Bus δ)
    (hreg : reg < 256) (hv : v < 65536) :
    (ads1015_write D reg v b).trace =
      b.trace ++ [BusEvent.start, BusEvent.write 0x90, BusEvent.write reg,
        BusEvent.write (v >>> 8), BusEvent.write (v &&& 0xFF), BusEvent.stop] ∧
    (ADS1015_ADDRESS = 0b1001000 ∧ I2C_WRITE = 0 ∧
      (ADS1015_ADDRESS <<< 1) ||| I2C_WRITE = 0x90) ∧
    (v >>> 8) * 256 + (v &&& 0xFF) = v := by
  obtain ⟨h1, h2⟩ := split_bytes v
  refine ⟨?_, ⟨rfl, rfl, by decide⟩, ?_⟩
  · rw [ads1015_write_trace, h1, h2, Nat.mod_eq_of_lt hreg, Nat.mod_eq_of_lt hv]
  · rw [h1, h2]
    omega

/-- Witness for C12: writing `0xBEEF` to the low-threshold register. -/
theorem write_bus_trace_witness :
    (ads1015_write scriptDevice 2 0xBEEF ⟨[], []⟩).trace =
      [BusEvent.start, BusEvent.write 0x90, BusEvent.write 2, BusEvent.write 0xBE,
       BusEvent.write 0xEF, BusEvent.stop] :=
  (write_bus_trace scriptDevice 2 0xBEEF ⟨[], []⟩ (by decide) (by decide)).1.trans
    (by decide)

/-- C13: for every register pointer `reg` (a byte), `ads1015_read reg` adds to the bus
trace exactly `[start, write 0x90, write reg, start, write 0x91, read with ACK -> b1,
read with NACK -> b2, stop]`, where `b1`, `b2` are the bytes the bus supplies, and returns
`b1 * 256 + b2`; no byte is read before the address byte `0x91` (read direction) has been
written.  Every pair of bytes occurs: a slave answering `b1`, `b2` gives this trace. -/
theorem read_bus_trace {δ : Type} (D : Device δ) (reg : Nat) (b : Bus δ) (hreg : reg < 256) :
    (∃ b1 b2 : Nat, b1 < 256 ∧ b2 < 256 ∧
      (ads1015_read D reg b).2.trace =
        b.trace ++ [BusEvent.start, BusEvent.write 0x90, BusEvent.write reg,
          BusEvent.start, BusEvent.write 0x91, BusEvent.read true b1,
          BusEvent.read false b2, BusEvent.stop] ∧
      (ads1015_read D reg b).1 = b1 * 256 + b2 ∧
      noReadBefore 0x91 [BusEvent.start, BusEvent.write 0x90, BusEvent.write reg,
          BusEvent.start, BusEvent.write 0x91, BusEvent.read true b1,
          BusEvent.read false b2, BusEvent.stop] = true) ∧
    (∀ (b1 b2 : Nat) (rest : List Nat) (tr : List BusEvent), b1 < 256 → b2 < 256 →
      (ads1015_read scriptDevice reg ⟨b1 :: b2 :: rest, tr⟩).2.trace =
        tr ++ [BusEvent.start, BusEvent.write 0x90, BusEvent.write reg,
          BusEvent.start, BusEvent.write 0x91, BusEvent.read true b1,
          BusEvent.read false b2, BusEvent.stop] ∧
      (ads1015_read scriptDevice reg ⟨b1 :: b2 :: rest, tr⟩).1 = b1 * 256 + b2) ∧
    ((ADS1015_ADDRESS <<< 1) ||| I2C_READ = 0x91 ∧ I2C_ACK = 1 ∧ I2C_NACK = 0) := by
  refine ⟨?_, ?_, by decide, rfl, rfl⟩
  · obtain ⟨b1, b2, h1, h2, hv, ht⟩ := ads1015_read_trace D reg b
    rw [Nat.mod_eq_of_lt hreg] at ht
    refine ⟨b1, b2, h1, h2, ht, hv, ?_⟩
    by_cases h : reg = 0x91 <;> simp [noReadBefore, h]
  · intro b1 b2 rest tr h1 h2
    constructor
    · simp [ads1015_read, i2c_start, i2c_stop, i2c_write, i2c_read, scriptDevice,
        ADS1015_ADDRESS, ADS1015_ADDRESS_ADDR_GND, I2C_WRITE, I2C_READ, I2C_ACK, I2C_NACK,
        Nat.mod_eq_of_lt hreg, Nat.mod_eq_of_lt h1, Nat.mod_eq_of_lt h2]
    · have key := assemble_bytes (b1 % 256) (b2 % 256) (Nat.mod_lt _ (by norm_num))
        (Nat.mod_lt _ (by norm_num))
      rw [Nat.mod_eq_of_lt h1, Nat.mod_eq_of_lt h2] at key
      simp [ads1015_read, i2c_start, i2c_stop, i2c_write, i2c_read, scriptDevice,
        Nat.mod_eq_of_lt h1, Nat.mod_eq_of_lt h2]
      exact key

/-- Witness for C13: the slave answers `0x12`, `0x34` to a read of the conversion register. -/
theorem read_bus_trace_witness :
    (ads1015_read scriptDevice 0 ⟨[0x12, 0x34], []⟩).2.trace =
      [BusEvent.start, BusEvent.write 0x90, BusEvent.write 0, BusEvent.start,
       BusEvent.write 0x91, BusEvent.read true 0x12, BusEvent.read false 0x34,
       BusEvent.stop] ∧
    (ads1015_read scriptDevice 0 ⟨[0x12, 0x34], []⟩).1 = 0x1234 :=
  ⟨((read_bus_trace scriptDevice 0 ⟨[], []⟩ (by decide)).2.1 0x12 0x34 [] []
      (by decide) (by decide)).1,
    ((read_bus_trace scriptDevice 0 ⟨[], []⟩ (by decide)).2.1 0x12 0x34 [] []
      (by decide) (by decide)).2⟩

/-! ## Alarm pin -/

theorem clear_low_two_bits (c : Nat) (hc : c < 65536) :
    (c &&& bitNot16 0b11) &&& 0b11 = 0 ∧
    ∀ i, 2 ≤ i → (c &&& bitNot16 0b11).testBit i = c.testBit i := by
  obtain ⟨-, h2, h3⟩ := field_update c 0 2 0 hc (by norm_num) (by norm_num)
  simp only [Nat.shiftLeft_zero, Nat.or_zero, Nat.shiftRight_zero, Nat.zero_shiftLeft] at h2 h3
  have e : (2 : Nat) ^ 2 - 1 = 0b11 := by norm_num
  rw [e] at h2 h3
  exact ⟨h2, fun i hi => h3 i (Or.inr (by omega))⟩

/-- C14: for every 16-bit cached config word `c`, `ads1015_enable_alarm_irq` performs
exactly two register writes, first high-threshold (pointer 3) <- `0xFFFF`, then
low-threshold (pointer 2) <- `0x0000`, and leaves the cached word equal to
`c AND NOT 0b11`: bits 0..1 are cleared and bits 2..15 are unchanged.  No other register is
written: on the mock slave the config and conversion registers keep their values. -/
theorem enable_alarm_irq_effect {δ : Type} (D : Device δ) (s : Driver δ)
    (hc : s.ads1015_config < 65536) :
    (ads1015_enable_alarm_irq D s).bus =
      ads1015_write D ADS1015_REG_LO_THRESH 0x0000
        (ads1015_write D ADS1015_REG_HI_THRESH 0xFFFF s.bus) ∧
    (ads1015_enable_alarm_irq D s).bus.trace = s.bus.trace ++
      [BusEvent.start, BusEvent.write 0x90, BusEvent.write 3, BusEvent.write 0xFF,
       BusEvent.write 0xFF, BusEvent.stop,
       BusEvent.start, BusEvent.write 0x90, BusEvent.write 2, BusEvent.write 0x00,
       BusEvent.write 0x00, BusEvent.stop] ∧
    (ads1015_enable_alarm_irq D s).ads1015_config = s.ads1015_config &&& bitNot16 0b11 ∧
    bitNot16 0b11 = 0xFFFC ∧
    (ads1015_enable_alarm_irq D s).ads1015_config &&& 0b11 = 0 ∧
    (∀ i, 2 ≤ i →
      (ads1015_enable_alarm_irq D s).ads1015_config.testBit i = s.ads1015_config.testBit i) ∧
    (∀ (st : Bool) (m : MockState) (tr : List BusEvent),
      (ads1015_enable_alarm_irq (mockDevice st) ⟨s.ads1015_config, ⟨m, tr⟩⟩).bus.dev.config =
        m.config ∧
      (ads1015_enable_alarm_irq (mockDevice st)
        ⟨s.ads1015_config, ⟨m, tr⟩⟩).bus.dev.conversion = m.conversion ∧
      (ads1015_enable_alarm_irq (mockDevice st)
        ⟨s.ads1015_config, ⟨m, tr⟩⟩).bus.dev.hi_thresh = 0xFFFF ∧
      (ads1015_enable_alarm_irq (mockDevice st)
        ⟨s.ads1015_config, ⟨m, tr⟩⟩).bus.dev.lo_thresh = 0x0000) := by
  obtain ⟨hlow, hhigh⟩ := clear_low_two_bits s.ads1015_config hc
  refine ⟨rfl, ?_, rfl, by decide, hlow, hhigh, ?_⟩
  · show (ads1015_write D ADS1015_REG_LO_THRESH 0x0000
        (ads1015_write D ADS1015_REG_HI_THRESH 0xFFFF s.bus)).trace = _
    rw [ads1015_write_trace, ads1015_write_trace]
    simp [ADS1015_REG_LO_THRESH, ADS1015_REG_HI_THRESH]
  · intro st m tr
    simp [ads1015_enable_alarm_irq, ads1015_write, i2c_start, i2c_stop, i2c_write,
      mockDevice, MockState.setReg, ADS1015_ADDRESS, ADS1015_ADDRESS_ADDR_GND, I2C_WRITE,
      ADS1015_REG_LO_THRESH, ADS1015_REG_HI_THRESH]
    decide

/-- Witness for C14: from the default word `0x8583` the cached word becomes `0x8580`. -/
theorem enable_alarm_irq_effect_witness :
    (ads1015_enable_alarm_irq scriptDevice ⟨0x8583, ⟨[], []⟩⟩).ads1015_config = 0x8580 ∧
    (ads1015_enable_alarm_irq scriptDevice ⟨0x8583, ⟨[], []⟩⟩).bus.trace =
      [BusEvent.start, BusEvent.write 0x90, BusEvent.write 3, BusEvent.write 0xFF,
       BusEvent.write 0xFF, BusEvent.stop,
       BusEvent.start, BusEvent.write 0x90, BusEvent.write 2, BusEvent.write 0x00,
       BusEvent.write 0x00, BusEvent.stop] :=
  ⟨(enable_alarm_irq_effect scriptDevice ⟨0x8583, ⟨[], []⟩⟩ (by decide)).2.2.1.trans
      (by decide),
    (enable_alarm_irq_effect scriptDevice ⟨0x8583, ⟨[], []⟩⟩ (by decide)).2.1⟩

/-! ## Floating conversion path -/

theorem tdiv16_eq (a : Int) :
    Int.tdiv a 16 = if 0 ≤ a then a / 16 else -((-a) / 16) := by
  by_cases h : 0 ≤ a
  · rw [if_pos h, Int.tdiv_eq_ediv h (by norm_num)]
  · rw [if_neg h]
    have hn : 0 ≤ -a := by omega
    have e : Int.tdiv a 16 = -(Int.tdiv (-a) 16) := by
      rw [Int.neg_tdiv, Int.neg_neg]
    rw [e, Int.tdiv_eq_ediv hn (by norm_num)]

theorem sample_bounds (r : Nat) :
    -2048 ≤ Int.tdiv (toInt16 (r : Int)) 16 ∧ Int.tdiv (toInt16 (r : Int)) 16 ≤ 2047 := by
  rw [tdiv16_eq]
  unfold toInt16
  split <;> omega

/-- C15: for every conversion-register value `r` read from the bus and every cached gain
selector `g` in 0..5, `ads1015_read_conversion_f` returns `q * ratio g`, where `q` is the
signed 16-bit interpretation of `r` divided by 16 with truncation toward zero and
`ratio = 3, 2, 1, 1/2, 1/4, 1/8`.  The value is a multiple of 1/8 of magnitude at most 6144.
A negative sample gives a negative result. -/
theorem read_conversion_f_scaling {δ : Type} (D : Device δ) (s : Driver δ) (g : Nat)
    (hg : g ≤ 5) (hgain : (s.ads1015_config >>> 9) &&& 7 = g) :
    (ads1015_read_conversion_f D s).1 =
      ((Int.tdiv (toInt16 ((ads1015_read D ADS1015_REG_CONVERSION s.bus).1 : Int)) 16 : Int) : ℚ)
        * [3, 2, 1, 1 / 2, 1 / 4, 1 / 8].getD g 0 ∧
    (∃ n : Int, (ads1015_read_conversion_f D s).1 = (n : ℚ) / 8 ∧ -49152 ≤ n ∧ n ≤ 49152) ∧
    |(ads1015_read_conversion_f D s).1| ≤ 6144 ∧
    (Int.tdiv (toInt16 ((ads1015_read D ADS1015_REG_CONVERSION s.bus).1 : Int)) 16 < 0 →
      (ads1015_read_conversion_f D s).1 < 0) := by
  have hG : gainOf s.ads1015_config = g := by rw [gainOf_eq]; exact hgain
  obtain ⟨hlo, hhi⟩ := sample_bounds (ads1015_read D ADS1015_REG_CONVERSION s.bus).1
  unfold ads1015_read_conversion_f
  simp only [hG]
  generalize Int.tdiv (toInt16 ((ads1015_read D ADS1015_REG_CONVERSION s.bus).1 : Int)) 16 = q
    at hlo hhi ⊢
  have hloQ : (-2048 : ℚ) ≤ (q : ℚ) := by exact_mod_cast hlo
  have hhiQ : (q : ℚ) ≤ 2047 := by exact_mod_cast hhi
  interval_cases g
  · refine ⟨by simp [div_eq_mul_inv], ⟨24 * q, by push_cast; ring, by omega, by omega⟩, ?_, ?_⟩
    · simp only []; rw [abs_le]; constructor <;> linarith
    · intro h; have : (q : ℚ) < 0 := by exact_mod_cast h
      simp only []; linarith
  · refine ⟨by simp [div_eq_mul_inv], ⟨16 * q, by push_cast; ring, by omega, by omega⟩, ?_, ?_⟩
    · simp only []; rw [abs_le]; constructor <;> linarith
    · intro h; have : (q : ℚ) < 0 := by exact_mod_cast h
      simp only []; linarith
  · refine ⟨by simp [div_eq_mul_inv], ⟨8 * q, by push_cast; ring, by omega, by omega⟩, ?_, ?_⟩
    · simp only []; rw [abs_le]; constructor <;> linarith
    · intro h; have : (q : ℚ) < 0 := by exact_mod_cast h
      simp only []; linarith
  · refine ⟨by simp [div_eq_mul_inv], ⟨4 * q, by push_cast; ring, by omega, by omega⟩, ?_, ?_⟩
    · simp only []; rw [abs_le]; constructor <;> linarith
    · intro h; have : (q : ℚ) < 0 := by exact_mod_cast h
      simp only []; linarith
  · refine ⟨by simp [div_eq_mul_inv], ⟨2 * q, by push_cast; ring, by omega, by omega⟩, ?_, ?_⟩
    · simp only []; rw [abs_le]; constructor <;> linarith
    · intro h; have : (q : ℚ) < 0 := by exact_mod_cast h
      simp only []; linarith
  · refine ⟨by simp [div_eq_mul_inv], ⟨1 * q, by push_cast; ring, by omega, by omega⟩, ?_, ?_⟩
    · simp only []; rw [abs_le]; constructor <;> linarith
    · intro h; have : (q : ℚ) < 0 := by exact_mod_cast h
      simp only []; linarith

/-- Witness for C15: the register value `0xFFF0` at gain selector 2 gives -1, a negative
result for a negative sample, and at gain selector 5 it gives -1/8. -/
theorem read_conversion_f_scaling_witness :
    (ads1015_read_conversion_f scriptDevice ⟨0x8583, ⟨[0xFF, 0xF0], []⟩⟩).1 = -1 ∧
    (ads1015_read_conversion_f scriptDevice ⟨0x8B83, ⟨[0xFF, 0xF0], []⟩⟩).1 = -1 / 8 ∧
    (ads1015_read_conversion_f scriptDevice ⟨0x8B83, ⟨[0xFF, 0xF0], []⟩⟩).1 < 0 :=
  ⟨by decide,
    (read_conversion_f_scaling scriptDevice ⟨0x8B83, ⟨[0xFF, 0xF0], []⟩⟩ 5
      (by decide) (by decide)).1.trans (by
        have e : Int.tdiv (toInt16 ((ads1015_read scriptDevice ADS1015_REG_CONVERSION
            (⟨0x8B83, ⟨[0xFF, 0xF0], []⟩⟩ : Driver (List Nat)).bus).1 : Int)) 16 = -1 := by
          decide
        rw [e]
        norm_num),
    (read_conversion_f_scaling scriptDevice ⟨0x8B83, ⟨[0xFF, 0xF0], []⟩⟩ 5
      (by decide) (by decide)).2.2.2 (by decide)⟩

/-! ## Fields of the config word do not overlap -/

theorem updatesField_testBit {δ : Type} (pos len v : Nat) (s s1 : Driver δ)
    (h : UpdatesField pos len v s s1) (i : Nat) :
    s1.ads1015_config.testBit i =
      if pos ≤ i ∧ i < pos + len then v.testBit (i - pos) else s.ads1015_config.testBit i := by
  obtain ⟨-, hfield, hout, -⟩ := h
  by_cases hin : pos ≤ i ∧ i < pos + len
  · rw [if_pos hin]
    have hb := congrArg (fun x => Nat.testBit x (i - pos)) hfield
    simp only [Nat.testBit_and, Nat.testBit_shiftRight, Nat.one_shiftLeft,
      Nat.testBit_two_pow_sub_one] at hb
    have e : pos + (i - pos) = i := by omega
    have hlt : i - pos < len := by omega
    rw [e] at hb
    simpa [hlt] using hb
  · rw [if_neg hin]
    exact hout i (by omega)

theorem updates_commute {δ : Type} (pA lA v pB lB w : Nat) (s sA sB sAB sBA : Driver δ)
    (hA : UpdatesField pA lA v s sA) (hB : UpdatesField pB lB w s sB)
    (hAB : UpdatesField pB lB w sA sAB) (hBA : UpdatesField pA lA v sB sBA)
    (hdisj : pA + lA ≤ pB ∨ pB + lB ≤ pA) : sAB = sBA := by
  have hcfg : sAB.ads1015_config = sBA.ads1015_config := by
    apply Nat.eq_of_testBit_eq
    intro i
    rw [updatesField_testBit pB lB w sA sAB hAB i, updatesField_testBit pA lA v s sA hA i,
      updatesField_testBit pA lA v sB sBA hBA i, updatesField_testBit pB lB w s sB hB i]
    by_cases h1 : pA ≤ i ∧ i < pA + lA <;> by_cases h2 : pB ≤ i ∧ i < pB + lB
    · omega
    · simp [h1, h2]
    · simp [h1, h2]
    · simp [h1, h2]
  have hbus : sAB.bus = sBA.bus := by
    rw [hAB.2.2.2, hA.2.2.2, hBA.2.2.2, hB.2.2.2]
  cases sAB
  cases sBA
  simp only [] at hcfg hbus
  rw [hcfg, hbus]

theorem set_mux_updates {δ : Type} (v : Nat) (s : Driver δ) (hc : s.ads1015_config < 65536)
    (hv : v < 2 ^ 3) : UpdatesField 12 3 v s (ads1015_set_mux v s) :=
  updatesField_of_eq 12 3 v s _ hc (by norm_num) (by norm_num) hv rfl rfl

theorem set_mux_lt {δ : Type} (v : Nat) (s : Driver δ) :
    (ads1015_set_mux v s).ads1015_config < 65536 :=
  Nat.mod_lt _ (by norm_num)

theorem set_gain_updates {δ : Type} (v : Nat) (s : Driver δ) (hc : s.ads1015_config < 65536)
    (hv : v < 2 ^ 3) : UpdatesField 9 3 v s (ads1015_set_gain v s) :=
  updatesField_of_eq 9 3 v s _ hc (by norm_num) (by norm_num) hv rfl rfl

theorem set_gain_lt {δ : Type} (v : Nat) (s : Driver δ) :
    (ads1015_set_gain v s).ads1015_config < 65536 :=
  Nat.mod_lt _ (by norm_num)

theorem set_mode_updates {δ : Type} (v : Nat) (s : Driver δ) (hc : s.ads1015_config < 65536)
    (hv : v < 2 ^ 1) : UpdatesField 8 1 v s (ads1015_set_mode v s) :=
  updatesField_of_eq 8 1 v s _ hc (by norm_num) (by norm_num) hv rfl rfl

theorem set_mode_lt {δ : Type} (v : Nat) (s : Driver δ) :
    (ads1015_set_mode v s).ads1015_config < 65536 :=
  Nat.mod_lt _ (by norm_num)

theorem set_data_rate_updates {δ : Type} (v : Nat) (s : Driver δ) (hc : s.ads1015_config < 65536)
    (hv : v < 2 ^ 3) : UpdatesField 5 3 v s (ads1015_set_data_rate v s) :=
  updatesField_of_eq 5 3 v s _ hc (by norm_num) (by norm_num) hv rfl rfl

theorem set_data_rate_lt {δ : Type} (v : Nat) (s : Driver δ) :
    (ads1015_set_data_rate v s).ads1015_config < 65536 :=
  Nat.mod_lt _ (by norm_num)

theorem set_irq_polarity_updates {δ : Type} (v : Nat) (s : Driver δ) (hc : s.ads1015_config < 65536)
    (hv : v < 2 ^ 1) : UpdatesField 3 1 v s (ads1015_set_irq_polarity v s) :=
  updatesField_of_eq 3 1 v s _ hc (by norm_num) (by norm_num) hv rfl rfl

theorem set_irq_polarity_lt {δ : Type} (v : Nat) (s : Driver δ) :
    (ads1015_set_irq_polarity v s).ads1015_config < 65536 :=
  Nat.mod_lt _ (by norm_num)

/-- C16: the bit fields of the config word never overlap, so setters of different fields
commute.  The masks the code forms are trigger `0x8000`, multiplexer `0x7000`, gain `0x0E00`,
mode `0x0100`, data rate `0x00E0`, polarity `0x0008` and comparator queue `0x0003`; they are
pairwise disjoint; and for every 16-bit cached word and every pair of legal selector values,
two setters of different fields applied in either order give the same state. -/
theorem config_fields_disjoint {δ : Type} (s : Driver δ) (hc : s.ads1015_config < 65536) :
    configMasks = [0x8000, 0x7000, 0x0E00, 0x0100, 0x00E0, 0x0008, 0x0003] ∧
    List.Pairwise (fun a b => a &&& b = 0) configMasks ∧
    (∀ a b, a < 2 ^ 3 → b < 2 ^ 3 →
      ads1015_set_gain b (ads1015_set_mux a s) = ads1015_set_mux a (ads1015_set_gain b s)) ∧
    (∀ a b, a < 2 ^ 3 → b < 2 ^ 1 →
      ads1015_set_mode b (ads1015_set_mux a s) = ads1015_set_mux a (ads1015_set_mode b s)) ∧
    (∀ a b, a < 2 ^ 3 → b < 2 ^ 3 →
      ads1015_set_data_rate b (ads1015_set_mux a s) = ads1015_set_mux a (ads1015_set_data_rate b s)) ∧
    (∀ a b, a < 2 ^ 3 → b < 2 ^ 1 →
      ads1015_set_irq_polarity b (ads1015_set_mux a s) = ads1015_set_mux a (ads1015_set_irq_polarity b s)) ∧
    (∀ a b, a < 2 ^ 3 → b < 2 ^ 1 →
      ads1015_set_mode b (ads1015_set_gain a s) = ads1015_set_gain a (ads1015_set_mode b s)) ∧
    (∀ a b, a < 2 ^ 3 → b < 2 ^ 3 →
      ads1015_set_data_rate b (ads1015_set_gain a s) = ads1015_set_gain a (ads1015_set_data_rate b s)) ∧
    (∀ a b, a < 2 ^ 3 → b < 2 ^ 1 →
      ads1015_set_irq_polarity b (ads1015_set_gain a s) = ads1015_set_gain a (ads1015_set_irq_polarity b s)) ∧
    (∀ a b, a < 2 ^ 1 → b < 2 ^ 3 →
      ads1015_set_data_rate b (ads1015_set_mode a s) = ads1015_set_mode a (ads1015_set_data_rate b s)) ∧
    (∀ a b, a < 2 ^ 1 → b < 2 ^ 1 →
      ads1015_set_irq_polarity b (ads1015_set_mode a s) = ads1015_set_mode a (ads1015_set_irq_polarity b s)) ∧
    (∀ a b, a < 2 ^ 3 → b < 2 ^ 1 →
      ads1015_set_irq_polarity b (ads1015_set_data_rate a s) = ads1015_set_data_rate a (ads1015_set_irq_polarity b s)) := by
  refine ⟨by decide, by decide, ?_, ?_, ?_, ?_, ?_, ?_, ?_, ?_, ?_, ?_⟩
  · intro a b ha hb
    exact updates_commute 12 3 a 9 3 b s _ _ _ _
      (set_mux_updates a s hc ha) (set_gain_updates b s hc hb)
      (set_gain_updates b _ (set_mux_lt a s) hb) (set_mux_updates a _ (set_gain_lt b s) ha)
      (by norm_num)
  · intro a b ha hb
    exact updates_commute 12 3 a 8 1 b s _ _ _ _
      (set_mux_updates a s hc ha) (set_mode_updates b s hc hb)
      (set_mode_updates b _ (set_mux_lt a s) hb) (set_mux_updates a _ (set_mode_lt b s) ha)
      (by norm_num)
  · intro a b ha hb
    exact updates_commute 12 3 a 5 3 b s _ _ _ _
      (set_mux_updates a s hc ha) (set_data_rate_updates b s hc hb)
      (set_data_rate_updates b _ (set_mux_lt a s) hb) (set_mux_updates a _ (set_data_rate_lt b s) ha)
      (by norm_num)
  · intro a b ha hb
    exact updates_commute 12 3 a 3 1 b s _ _ _ _
      (set_mux_updates a s hc ha) (set_irq_polarity_updates b s hc hb)
      (set_irq_polarity_updates b _ (set_mux_lt a s) hb) (set_mux_updates a _ (set_irq_polarity_lt b s) ha)
      (by norm_num)
  · intro a b ha hb
    exact updates_commute 9 3 a 8 1 b s _ _ _ _
      (set_gain_updates a s hc ha) (set_mode_updates b s hc hb)
      (set_mode_updates b _ (set_gain_lt a s) hb) (set_gain_updates a _ (set_mode_lt b s) ha)
      (by norm_num)
  · intro a b ha hb
    exact updates_commute 9 3 a 5 3 b s _ _ _ _
      (set_gain_updates a s hc ha) (set_data_rate_updates b s hc hb)
      (set_data_rate_updates b _ (set_gain_lt a s) hb) (set_gain_updates a _ (set_data_rate_lt b s) ha)
      (by norm_num)
  · intro a b ha hb
    exact updates_commute 9 3 a 3 1 b s _ _ _ _
      (set_gain_updates a s hc ha) (set_irq_polarity_updates b s hc hb)
      (set_irq_polarity_updates b _ (set_gain_lt a s) hb) (set_gain_updates a _ (set_irq_polarity_lt b s) ha)
      (by norm_num)
  · intro a b ha hb
    exact updates_commute 8 1 a 5 3 b s _ _ _ _
      (set_mode_updates a s hc ha) (set_data_rate_updates b s hc hb)
      (set_data_rate_updates b _ (set_mode_lt a s) hb) (set_mode_updates a _ (set_data_rate_lt b s) ha)
      (by norm_num)
  · intro a b ha hb
    exact updates_commute 8 1 a 3 1 b s _ _ _ _
      (set_mode_updates a s hc ha) (set_irq_polarity_updates b s hc hb)
      (set_irq_polarity_updates b _ (set_mode_lt a s) hb) (set_mode_updates a _ (set_irq_polarity_lt b s) ha)
      (by norm_num)
  · intro a b ha hb
    exact updates_commute 5 3 a 3 1 b s _ _ _ _
      (set_data_rate_updates a s hc ha) (set_irq_polarity_updates b s hc hb)
      (set_irq_polarity_updates b _ (set_data_rate_lt a s) hb) (set_data_rate_updates a _ (set_irq_polarity_lt b s) ha)
      (by norm_num)

/-- Witness for C16: on the default word `0x8583`, selecting gain 3 and multiplexer input 4
in either order gives `0xC783`. -/
theorem config_fields_disjoint_witness :
    (ads1015_set_gain 3 (ads1015_set_mux 4 (⟨0x8583, ⟨[], []⟩⟩ : Driver (List Nat)))) =
      ads1015_set_mux 4 (ads1015_set_gain 3 ⟨0x8583, ⟨[], []⟩⟩) ∧
    (ads1015_set_gain 3 (ads1015_set_mux 4
      (⟨0x8583, ⟨[], []⟩⟩ : Driver (List Nat)))).ads1015_config = 0xC783 :=
  ⟨(config_fields_disjoint (⟨0x8583, ⟨[], []⟩⟩ : Driver (List Nat)) (by decide)).2.2.1 4 3
      (by decide) (by decide),
    by decide⟩

/-! ## Framing of the bus traces -/

theorem write_adds_transaction {δ : Type} (D : Device δ) (reg value : Nat) (b : Bus δ) :
    AddsTransactions b.trace (ads1015_write D reg value b).trace 1 1 := by
  refine ⟨_, ads1015_write_trace D reg value b, ?_, ?_, ?_, ?_⟩ <;>
    simp [framed, openingStarts]

theorem read_adds_transaction {δ : Type} (D : Device δ) (reg : Nat) (b : Bus δ) :
    AddsTransactions b.trace (ads1015_read D reg b).2.trace 2 1 := by
  obtain ⟨b1, b2, -, -, -, ht⟩ := ads1015_read_trace D reg b
  refine ⟨_, ht, ?_, ?_, ?_, ?_⟩ <;> simp [framed, openingStarts]

theorem framed_append (e1 e2 : List BusEvent) :
    ∀ inT : Bool, framed inT e1 = true →
      framed inT (e1 ++ e2) = framed false e2 ∧
      openingStarts inT (e1 ++ e2) = openingStarts inT e1 + openingStarts false e2 := by
  induction e1 with
  | nil =>
    intro inT h
    cases inT
    · simp [openingStarts]
    · simp [framed] at h
  | cons ev rest ih =>
    intro inT h
    cases ev with
    | start =>
      simp only [framed] at h
      obtain ⟨h1, h2⟩ := ih true h
      refine ⟨h1, ?_⟩
      show (if inT = true then 0 else 1) + openingStarts true (rest ++ e2) =
        (if inT = true then 0 else 1) + openingStarts true rest + openingStarts false e2
      rw [h2, Nat.add_assoc]
    | stop =>
      simp only [framed, Bool.and_eq_true] at h
      obtain ⟨h1, h2⟩ := ih false h.2
      have hT : inT = true := h.1
      subst hT
      exact ⟨h1, h2⟩
    | write b =>
      simp only [framed, Bool.and_eq_true] at h
      obtain ⟨h1, h2⟩ := ih true h.2
      have hT : inT = true := h.1
      subst hT
      exact ⟨h1, h2⟩
    | read a b =>
      simp only [framed, Bool.and_eq_true] at h
      obtain ⟨h1, h2⟩ := ih true h.2
      have hT : inT = true := h.1
      subst hT
      exact ⟨h1, h2⟩

theorem addsTransactions_trans (t0 t1 t2 : List BusEvent) (a1 b1 a2 b2 : Nat)
    (h1 : AddsTransactions t0 t1 a1 b1) (h2 : AddsTransactions t1 t2 a2 b2) :
    AddsTransactions t0 t2 (a1 + a2) (b1 + b2) := by
  obtain ⟨e1, ht1, hf1, hs1, hp1, ho1⟩ := h1
  obtain ⟨e2, ht2, hf2, hs2, hp2, ho2⟩ := h2
  obtain ⟨hfa, hoa⟩ := framed_append e1 e2 false hf1
  refine ⟨e1 ++ e2, ?_, ?_, ?_, ?_, ?_⟩
  · rw [ht2, ht1, List.append_assoc]
  · rw [hfa, hf2]
  · rw [List.count_append, hs1, hs2]
  · rw [List.count_append, hp1, hp2]
  · rw [hoa, ho1, ho2]

theorem read_conversion_bus {δ : Type} (D : Device δ) (s : Driver δ) :
    (ads1015_read_conversion D s).2.bus = (ads1015_read D ADS1015_REG_CONVERSION s.bus).2 := by
  unfold ads1015_read_conversion
  simp only []
  split
  · rfl
  · split <;> rfl

/-- The counterexample to C17: the trace of `ads1015_read` holds two start conditions, the
second one a repeated start, and one stop condition. -/
theorem read_trace_two_starts_one_stop :
    (ads1015_read scriptDevice ADS1015_REG_CONVERSION ⟨[0x12, 0x34], []⟩).2.trace =
      [BusEvent.start, BusEvent.write 0x90, BusEvent.write 0, BusEvent.start,
       BusEvent.write 0x91, BusEvent.read true 0x12, BusEvent.read false 0x34,
       BusEvent.stop] ∧
    List.count BusEvent.start
      (ads1015_read scriptDevice ADS1015_REG_CONVERSION ⟨[0x12, 0x34], []⟩).2.trace = 2 ∧
    List.count BusEvent.stop
      (ads1015_read scriptDevice ADS1015_REG_CONVERSION ⟨[0x12, 0x34], []⟩).2.trace = 1 := by
  decide

/-- C17 as amended: in the bus trace of every operation of the device protocol each
transaction is opened by one start on the idle bus and closed by exactly one stop, no byte
is transferred outside a transaction, and the bus is idle at the end (for `ads1015_init`:
when it returns or halts).  `ads1015_write` and `ads1015_start` add one start and one stop,
`ads1015_enable_alarm_irq` two and two.  The read transaction contains a repeated start,
which no stop of its own closes: `ads1015_read` and `ads1015_read_conversion` add two
starts and one stop, `ads1015_init` three starts and two stops. -/
theorem bus_traces_framed {δ : Type} (D : Device δ) (s : Driver δ) (reg value : Nat) :
    AddsTransactions s.bus.trace (ads1015_write D reg value s.bus).trace 1 1 ∧
    AddsTransactions s.bus.trace (ads1015_read D reg s.bus).2.trace 2 1 ∧
    AddsTransactions s.bus.trace (ads1015_start D s).bus.trace 1 1 ∧
    AddsTransactions s.bus.trace (ads1015_enable_alarm_irq D s).bus.trace 2 2 ∧
    AddsTransactions s.bus.trace (ads1015_read_conversion D s).2.bus.trace 2 1 ∧
    AddsTransactions s.bus.trace (ads1015_init D s).state.bus.trace 3 2 := by
  refine ⟨write_adds_transaction D reg value s.bus, read_adds_transaction D reg s.bus,
    write_adds_transaction D _ _ s.bus, ?_, ?_, ?_⟩
  · exact addsTransactions_trans _ _ _ 1 1 1 1
      (write_adds_transaction D ADS1015_REG_HI_THRESH 0xFFFF s.bus)
      (write_adds_transaction D ADS1015_REG_LO_THRESH 0x0000 _)
  · rw [read_conversion_bus]
    exact read_adds_transaction D _ s.bus
  · rw [(init_outcome D s).2.1]
    exact addsTransactions_trans _ _ _ 1 1 2 1
      (write_adds_transaction D ADS1015_REG_CONFIG 0x0583 s.bus)
      (read_adds_transaction D ADS1015_REG_CONFIG _)

/-! ## Arguments wider than the field -/

/-- C18: the setters neither mask nor validate their argument.  On the default word
`0x8583`, `ads1015_set_gain 8` gives `0x9183`, which sets bit 12 of the multiplexer field,
and `ads1015_set_mode 2` gives `0x8683`, which sets bit 9 of the gain field; in both cases
the bit lies outside the field of the setter and is clear in `0x8583`. -/
theorem setters_do_not_mask :
    (∀ (δ : Type) (b : Bus δ),
      (ads1015_set_gain 8 ⟨ADS1015_DEFAULT_CONFIG, b⟩).ads1015_config = 0x9183 ∧
      (ads1015_set_mode 2 ⟨ADS1015_DEFAULT_CONFIG, b⟩).ads1015_config = 0x8683) ∧
    ADS1015_DEFAULT_CONFIG = 0x8583 ∧
    ¬ (8 < 2 ^ ADS1015_REG_CONFIG_PGA_LEN) ∧ ¬ (2 < 2 ^ 1) ∧
    (Nat.testBit 0x8583 12 = false ∧ Nat.testBit 0x9183 12 = true ∧
      ¬ (ADS1015_REG_CONFIG_PGA ≤ 12 ∧
        12 < ADS1015_REG_CONFIG_PGA + ADS1015_REG_CONFIG_PGA_LEN)) ∧
    (Nat.testBit 0x8583 9 = false ∧ Nat.testBit 0x8683 9 = true ∧
      ¬ (ADS1015_REG_CONFIG_MODE ≤ 9 ∧ 9 < ADS1015_REG_CONFIG_MODE + 1)) := by
  refine ⟨fun δ b => ⟨?_, ?_⟩, rfl, by decide, by decide, by decide, by decide⟩
  · show ((ADS1015_DEFAULT_CONFIG &&&
        bitNot16 (((1 <<< ADS1015_REG_CONFIG_PGA_LEN) - 1) <<< ADS1015_REG_CONFIG_PGA)) |||
        ((8 % 256) <<< ADS1015_REG_CONFIG_PGA)) % 65536 = 0x9183
    decide
  · show ((ADS1015_DEFAULT_CONFIG &&& bitNot16 (1 <<< ADS1015_REG_CONFIG_MODE)) |||
        ((2 % 256) <<< ADS1015_REG_CONFIG_MODE)) % 65536 = 0x8683
    decide

/-! ## Reachable states of the transmit queue -/

theorem run_preserves (N : Nat) (P : UartState → Prop)
    (hput : ∀ s b s1, P s → uart_putc N b s = some s1 → P s1)
    (hisr : ∀ s, P s → P (USART_UDRE_vect N s)) :
    ∀ (ticks : List Tick) (pending : List Nat) (s : UartState),
      P s → P (run N ticks pending s).1 := by
  intro ticks
  induction ticks with
  | nil => intro pending s h; simpa [run] using h
  | cons tk ts ih =>
    intro pending s h
    cases tk with
    | producer =>
      cases pending with
      | nil => simp only [run]; exact ih [] s h
      | cons x xs =>
        simp only [run]
        cases hp : uart_putc N x s with
        | none => exact ih (x :: xs) s h
        | some s1 => exact ih xs s1 (hput s x s1 h hp)
    | drain => simp only [run]; exact ih pending _ (hisr s h)

/-- C19: in every state reached from reset (empty queue, buffer-empty interrupt disabled)
by completed `uart_putc` calls and drain-interrupt steps, if head differs from tail then the
buffer-empty interrupt is enabled. -/
theorem queued_byte_has_interrupt_armed (N : Nat) (ticks : List Tick) (bytes : List Nat) :
    (run N ticks bytes (uart_reset N)).1.tx_head ≠ (run N ticks bytes (uart_reset N)).1.tx_tail →
      (run N ticks bytes (uart_reset N)).1.udrie = true := by
  apply run_preserves N (fun s => s.tx_head ≠ s.tx_tail → s.udrie = true)
  · intro s b s1 _ hp _
    unfold uart_putc at hp
    simp only [] at hp
    split at hp
    · exact absurd hp (by simp)
    · rw [← Option.some.inj hp]
  · intro s h
    unfold USART_UDRE_vect
    by_cases hne : s.tx_head = s.tx_tail
    · simp [hne]
    · intro _
      simp only [hne, ne_eq, not_false_eq_true, if_true]
      exact h hne
  · intro h
    exact absurd rfl h

/-- Witness for C19 at capacity 4: after two puts and one drain one byte is queued and the
interrupt is enabled. -/
theorem queued_byte_has_interrupt_armed_witness :
    (run 4 [Tick.producer, Tick.producer, Tick.drain] [65, 66] (uart_reset 4)).1.tx_head = 2 ∧
    (run 4 [Tick.producer, Tick.producer, Tick.drain] [65, 66] (uart_reset 4)).1.tx_tail = 1 ∧
    (run 4 [Tick.producer, Tick.producer, Tick.drain] [65, 66] (uart_reset 4)).1.udrie = true :=
  ⟨by decide, by decide,
    queued_byte_has_interrupt_armed 4 [Tick.producer, Tick.producer, Tick.drain] [65, 66]
      (by decide)⟩

/-- C20: for every power-of-two `TX_BUFF_SIZE` up to 256, in every state reached from reset
by `uart_putc` calls and drain-interrupt steps, `tx_head` and `tx_tail` are below
`TX_BUFF_SIZE` and `tx_buff` has `TX_BUFF_SIZE` slots; so the slot `uart_putc` writes and
the slot the interrupt reads lie within the array. -/
theorem ring_indices_in_bounds (k : Nat) (hk : k ≤ 8) (ticks : List Tick) (bytes : List Nat) :
    (run (2 ^ k) ticks bytes (uart_reset (2 ^ k))).1.tx_head < 2 ^ k ∧
    (run (2 ^ k) ticks bytes (uart_reset (2 ^ k))).1.tx_tail < 2 ^ k ∧
    (run (2 ^ k) ticks bytes (uart_reset (2 ^ k))).1.tx_buff.length = 2 ^ k ∧
    (((run (2 ^ k) ticks bytes (uart_reset (2 ^ k))).1.tx_head + 1) &&& (2 ^ k - 1)) % 256 <
      (run (2 ^ k) ticks bytes (uart_reset (2 ^ k))).1.tx_buff.length ∧
    (((run (2 ^ k) ticks bytes (uart_reset (2 ^ k))).1.tx_tail + 1) &&& (2 ^ k - 1)) % 256 <
      (run (2 ^ k) ticks bytes (uart_reset (2 ^ k))).1.tx_buff.length := by
  have hN : 0 < 2 ^ k := Nat.pow_pos (by norm_num)
  have hidx : ∀ x : Nat, ((x + 1) &&& (2 ^ k - 1)) % 256 < 2 ^ k := by
    intro x
    rw [mask_eq_mod k x hk]
    exact Nat.mod_lt _ hN
  have hinv : (fun s : UartState =>
      s.tx_head < 2 ^ k ∧ s.tx_tail < 2 ^ k ∧ s.tx_buff.length = 2 ^ k)
      (run (2 ^ k) ticks bytes (uart_reset (2 ^ k))).1 := by
    apply run_preserves (2 ^ k)
      (fun s => s.tx_head < 2 ^ k ∧ s.tx_tail < 2 ^ k ∧ s.tx_buff.length = 2 ^ k)
    · intro s b s1 h hp
      unfold uart_putc at hp
      simp only [] at hp
      split at hp
      · exact absurd hp (by simp)
      · rw [← Option.some.inj hp]
        exact ⟨hidx _, h.2.1, by simp [h.2.2]⟩
    · intro s h
      unfold USART_UDRE_vect
      split
      · exact ⟨h.1, hidx _, h.2.2⟩
      · exact h
    · exact ⟨hN, hN, by simp [uart_reset]⟩
  obtain ⟨h1, h2, h3⟩ := hinv
  refine ⟨h1, h2, h3, ?_, ?_⟩
  · rw [h3]; exact hidx _
  · rw [h3]; exact hidx _

/-- Witness for C20 at the capacity 32 of `uart.h`: after 31 puts, 31 drains and one more
put the head has wrapped to 0. -/
theorem ring_indices_in_bounds_witness :
    (run (2 ^ 5) (List.replicate 31 Tick.producer ++ List.replicate 31 Tick.drain ++
      [Tick.producer]) (List.replicate 32 7) (uart_reset (2 ^ 5))).1.tx_head < 2 ^ 5 ∧
    (run 32 (List.replicate 31 Tick.producer ++ List.replicate 31 Tick.drain ++
      [Tick.producer]) (List.replicate 32 7) (uart_reset 32)).1.tx_head = 0 :=
  ⟨(ring_indices_in_bounds 5 (by decide) _ _).1, by decide⟩
